import Mathlib

/-!
# Verification of the splashsurf marching-cubes / octree core

A shallow embedding, in Lean 4, of the two source files of the repository:

* src/splashsurf_lib/src/marching_cubes.rs
* src/splashsurf_lib/src/octree.rs

The index type I is modelled by ℤ (the spec requires a signed integer wide
enough for the grid, so no wrap-around is modelled) and the scalar type R by ℚ
(exact arithmetic; the spec's R is IEEE floating point, but every claim treated
here is about ordering/equality relations that coincide on the common domain).

Helper modules of the repository that are NOT part of the two source files
(uniform_grid.rs, topology.rs, marching_cubes_lut.rs, mesh.rs, generic_tree.rs)
are modelled from the spec; each such definition carries a doc comment starting
with "Modelled from the spec:".

Rust panics (expect / unwrap / assert!) inside translated functions are
modelled either by an Option-valued result (when the whole function is
fallible) or, for panics that cannot fire on the inputs the theorems consider,
by skipping the offending item; each place is marked with a comment.

Sparse maps (Rust MapType, i.e. a hash map) are modelled by association lists;
only lookup/insert/remove/iterate are used, and the source algorithms are
insensitive to iteration order (spec §5 "Ordering guarantees").
-/

/-! ## Association maps (model of Rust MapType) -/

/-- Lookup in an association list (Rust HashMap::get). -/
def mlookup {α β : Type} [DecidableEq α] : List (α × β) → α → Option β
  | [], _ => none
  | (k, v) :: rest, key => if key = k then some v else mlookup rest key

/-- Insert-or-replace (Rust HashMap::insert). -/
def minsert {α β : Type} [DecidableEq α] : List (α × β) → α → β → List (α × β)
  | [], key, v => [(key, v)]
  | (k, v0) :: rest, key, v =>
    if key = k then (k, v) :: rest else (k, v0) :: minsert rest key v

/-- Rust entry(key).or_insert_with(default), followed by a mutation f of the
entry; the resulting map holds f(old value) at key, or f(default) if absent. -/
def mupdate {α β : Type} [DecidableEq α] : List (α × β) → α → (β → β) → β → List (α × β)
  | [], key, f, dflt => [(key, f dflt)]
  | (k, v0) :: rest, key, f, dflt =>
    if key = k then (k, f v0) :: rest else (k, v0) :: mupdate rest key f dflt

/-- Rust entry(key).and_modify(f).or_insert(v). -/
def mAndModifyOrInsert {α β : Type} [DecidableEq α] :
    List (α × β) → α → (β → β) → β → List (α × β)
  | [], key, _, v => [(key, v)]
  | (k, v0) :: rest, key, f, v =>
    if key = k then (k, f v0) :: rest else (k, v0) :: mAndModifyOrInsert rest key f v

/-- Rust HashMap::remove: the removed value together with the remaining map. -/
def mremove {α β : Type} [DecidableEq α] : List (α × β) → α → Option (β × List (α × β))
  | [], _ => none
  | (k, v0) :: rest, key =>
    if key = k then some (v0, rest)
    else (mremove rest key).map (fun p => (p.1, (k, v0) :: p.2))

/-- The keys of an association list are pairwise distinct. -/
abbrev NodupKeys {α β : Type} (m : List (α × β)) : Prop := (m.map Prod.fst).Nodup

theorem mlookup_minsert_self {α β : Type} [DecidableEq α] (m : List (α × β)) (k : α) (v : β) :
    mlookup (minsert m k v) k = some v := by
  induction m with
  | nil => simp [minsert, mlookup]
  | cons hd tl ih =>
    by_cases h : k = hd.1
    · cases hd; simp_all [minsert, mlookup]
    · cases hd; simp_all [minsert, mlookup]

theorem mlookup_minsert_ne {α β : Type} [DecidableEq α] (m : List (α × β)) (k k' : α) (v : β)
    (h : k' ≠ k) : mlookup (minsert m k v) k' = mlookup m k' := by
  induction m with
  | nil => simp [minsert, mlookup, h]
  | cons hd tl ih =>
    cases hd with
    | mk k0 v0 =>
      by_cases hk : k = k0
      · subst hk; simp [minsert, mlookup, h]
      · by_cases hk' : k' = k0 <;> simp_all [minsert, mlookup]

theorem mlookup_mupdate_self {α β : Type} [DecidableEq α] (m : List (α × β)) (k : α)
    (f : β → β) (dflt : β) :
    mlookup (mupdate m k f dflt) k = some (f ((mlookup m k).getD dflt)) := by
  induction m with
  | nil => simp [mupdate, mlookup]
  | cons hd tl ih =>
    cases hd with
    | mk k0 v0 =>
      by_cases hk : k = k0
      · subst hk; simp [mupdate, mlookup]
      · simp_all [mupdate, mlookup]

theorem mlookup_mupdate_ne {α β : Type} [DecidableEq α] (m : List (α × β)) (k k' : α)
    (f : β → β) (dflt : β) (h : k' ≠ k) :
    mlookup (mupdate m k f dflt) k' = mlookup m k' := by
  induction m with
  | nil => simp [mupdate, mlookup, h]
  | cons hd tl ih =>
    cases hd with
    | mk k0 v0 =>
      by_cases hk : k = k0
      · subst hk; simp [mupdate, mlookup, h]
      · by_cases hk' : k' = k0 <;> simp_all [mupdate, mlookup]

theorem mlookup_mAndModifyOrInsert_self {α β : Type} [DecidableEq α] (m : List (α × β))
    (k : α) (f : β → β) (v : β) :
    mlookup (mAndModifyOrInsert m k f v) k =
      some (match mlookup m k with | some v0 => f v0 | none => v) := by
  induction m with
  | nil => simp [mAndModifyOrInsert, mlookup]
  | cons hd tl ih =>
    cases hd with
    | mk k0 v0 =>
      by_cases hk : k = k0
      · subst hk; simp [mAndModifyOrInsert, mlookup]
      · simp_all [mAndModifyOrInsert, mlookup]

theorem mlookup_mAndModifyOrInsert_ne {α β : Type} [DecidableEq α] (m : List (α × β))
    (k k' : α) (f : β → β) (v : β) (h : k' ≠ k) :
    mlookup (mAndModifyOrInsert m k f v) k' = mlookup m k' := by
  induction m with
  | nil => simp [mAndModifyOrInsert, mlookup, h]
  | cons hd tl ih =>
    cases hd with
    | mk k0 v0 =>
      by_cases hk : k = k0
      · subst hk; simp [mAndModifyOrInsert, mlookup, h]
      · by_cases hk' : k' = k0 <;> simp_all [mAndModifyOrInsert, mlookup]

theorem mlookup_append_of_not_key {α β : Type} [DecidableEq α] (pre rest : List (α × β))
    (k : α) (hpre : ∀ e ∈ pre, e.1 ≠ k) :
    mlookup (pre ++ rest) k = mlookup rest k := by
  induction pre with
  | nil => simp
  | cons hd tl ih =>
    have hne : k ≠ hd.1 := fun hc => hpre hd (by simp) hc.symm
    cases hd
    simp only [List.cons_append, mlookup, if_neg hne]
    exact ih (fun e he => hpre e (by simp [he]))

theorem mlookup_not_key_eq_none {α β : Type} [DecidableEq α] (m : List (α × β))
    (k : α) (hm : ∀ e ∈ m, e.1 ≠ k) : mlookup m k = none := by
  induction m with
  | nil => simp [mlookup]
  | cons hd tl ih =>
    have hne : k ≠ hd.1 := fun hc => hm hd (by simp) hc.symm
    cases hd
    simp only [mlookup, if_neg hne]
    exact ih (fun e he => hm e (by simp [he]))

/-- Characterisation of a successful mremove as a splitting of the list. -/
theorem mremove_eq_some {α β : Type} [DecidableEq α] (m : List (α × β)) (k : α)
    (v : β) (m' : List (α × β)) (h : mremove m k = some (v, m')) :
    ∃ pre post, m = pre ++ (k, v) :: post ∧ m' = pre ++ post ∧
      ∀ e ∈ pre, e.1 ≠ k := by
  induction m generalizing m' with
  | nil => simp [mremove] at h
  | cons hd tl ih =>
    cases hd with
    | mk k0 v0 =>
      by_cases hk : k = k0
      · subst hk
        simp [mremove] at h
        exact ⟨[], tl, by simp [h.1], by simp [h.2], by simp⟩
      · rw [show mremove ((k0, v0) :: tl) k =
            (mremove tl k).map (fun p => (p.1, (k0, v0) :: p.2)) by
              simp [mremove, hk]] at h
        cases hrec : mremove tl k with
        | none => rw [hrec] at h; simp at h
        | some p =>
          rw [hrec] at h
          simp at h
          obtain ⟨hv, hm'⟩ := h
          obtain ⟨pre, post, h1, h2, h3⟩ := ih p.2 (by rw [hrec, ← hv])
          refine ⟨(k0, v0) :: pre, post, by simp [h1], by simp [← hm', h2], ?_⟩
          intro e he
          rcases List.mem_cons.mp he with he1 | he2
          · subst he1; exact fun hc => hk hc.symm
          · exact h3 e he2

theorem mremove_lookup {α β : Type} [DecidableEq α] (m : List (α × β)) (k : α)
    (v : β) (m' : List (α × β)) (h : mremove m k = some (v, m')) :
    mlookup m k = some v := by
  obtain ⟨pre, post, h1, _, h3⟩ := mremove_eq_some m k v m' h
  subst h1
  rw [mlookup_append_of_not_key pre _ k h3]
  simp [mlookup]

theorem mlookup_append_middle_ne {α β : Type} [DecidableEq α] (pre post : List (α × β))
    (k k' : α) (v : β) (hne : k' ≠ k) :
    mlookup (pre ++ post) k' = mlookup (pre ++ (k, v) :: post) k' := by
  induction pre with
  | nil => simp [mlookup, hne]
  | cons hd tl ih =>
    cases hd with
    | mk k0 v0 =>
      by_cases hk0 : k' = k0 <;> simp [mlookup, hk0, ih]

theorem mremove_lookup_ne {α β : Type} [DecidableEq α] (m : List (α × β)) (k k' : α)
    (v : β) (m' : List (α × β)) (h : mremove m k = some (v, m')) (hne : k' ≠ k) :
    mlookup m' k' = mlookup m k' := by
  obtain ⟨pre, post, h1, h2, _⟩ := mremove_eq_some m k v m' h
  subst h1; subst h2
  exact mlookup_append_middle_ne pre post k k' v hne

theorem mremove_lookup_self_nodup {α β : Type} [DecidableEq α] (m : List (α × β)) (k : α)
    (v : β) (m' : List (α × β)) (hnd : NodupKeys m) (h : mremove m k = some (v, m')) :
    mlookup m' k = none := by
  obtain ⟨pre, post, h1, h2, _⟩ := mremove_eq_some m k v m' h
  subst h1; subst h2
  simp only [NodupKeys, List.map_append, List.map_cons, List.nodup_append] at hnd
  obtain ⟨hpre, hpost, hdisj⟩ := hnd
  have hkpre : ∀ e ∈ pre, e.1 ≠ k := by
    intro e he hc
    exact hdisj (List.mem_map_of_mem _ he) (by simp [hc])
  have hkpost : ∀ e ∈ post, e.1 ≠ k := by
    intro e he hc
    have := List.nodup_cons.mp hpost
    exact this.1 (hc ▸ List.mem_map_of_mem Prod.fst he)
  rw [mlookup_append_of_not_key pre _ k hkpre]
  exact mlookup_not_key_eq_none post k hkpost

theorem nodupKeys_mremove {α β : Type} [DecidableEq α] (m : List (α × β)) (k : α)
    (v : β) (m' : List (α × β)) (hnd : NodupKeys m) (h : mremove m k = some (v, m')) :
    NodupKeys m' := by
  obtain ⟨pre, post, h1, h2, _⟩ := mremove_eq_some m k v m' h
  subst h1; subst h2
  simp only [NodupKeys, List.map_append, List.map_cons] at hnd ⊢
  exact List.Nodup.sublist (List.Sublist.append_left (List.sublist_cons_self _ _) _) hnd

/-! ## Basic topology types (Modelled from the spec, §3/§4.7: topology.rs is
not among the provided source files). -/

/-- Modelled from the spec: a cartesian coordinate axis. -/
inductive Axis : Type
  | X
  | Y
  | Z
  deriving DecidableEq, Repr

/-- Modelled from the spec: a direction along an axis. -/
inductive Direction : Type
  | Negative
  | Positive
  deriving DecidableEq, Repr

def Direction.is_positive : Direction → Bool
  | Direction.Positive => true
  | Direction.Negative => false

def Direction.is_negative : Direction → Bool
  | Direction.Positive => false
  | Direction.Negative => true

def Direction.opposite : Direction → Direction
  | Direction.Positive => Direction.Negative
  | Direction.Negative => Direction.Positive

/-- Modelled from the spec: a directed axis (one of the six face directions). -/
structure DirectedAxis : Type where
  axis : Axis
  direction : Direction
  deriving DecidableEq, Repr

/-- Modelled from the spec: the two axes orthogonal to a given axis. -/
def Axis.orthogonal_axes : Axis → Axis × Axis
  | Axis.X => (Axis.Y, Axis.Z)
  | Axis.Y => (Axis.X, Axis.Z)
  | Axis.Z => (Axis.X, Axis.Y)

def Axis.with_direction (a : Axis) (d : Direction) : DirectedAxis := ⟨a, d⟩

/-- An integer index triple (i, j, k); the Rust code uses [I; 3]. -/
structure I3 : Type where
  x : ℤ
  y : ℤ
  z : ℤ
  deriving DecidableEq, Repr

/-- A scalar coordinate triple; the Rust code uses Vector3 of R. -/
structure R3 : Type where
  x : ℚ
  y : ℚ
  z : ℚ
  deriving DecidableEq, Repr

def I3.get (p : I3) : Axis → ℤ
  | Axis.X => p.x
  | Axis.Y => p.y
  | Axis.Z => p.z

def I3.set (p : I3) : Axis → ℤ → I3
  | Axis.X, v => ⟨v, p.y, p.z⟩
  | Axis.Y, v => ⟨p.x, v, p.z⟩
  | Axis.Z, v => ⟨p.x, p.y, v⟩

def I3.add (p q : I3) : I3 := ⟨p.x + q.x, p.y + q.y, p.z + q.z⟩

def I3.sub (p q : I3) : I3 := ⟨p.x - q.x, p.y - q.y, p.z - q.z⟩

/-- Unit step along an axis. -/
def Axis.unit : Axis → I3
  | Axis.X => ⟨1, 0, 0⟩
  | Axis.Y => ⟨0, 1, 0⟩
  | Axis.Z => ⟨0, 0, 1⟩

/-- Modelled from the spec: one step from a point along a directed axis. -/
def DirectedAxis.step (d : DirectedAxis) (p : I3) : I3 :=
  match d.direction with
  | Direction.Positive => p.add d.axis.unit
  | Direction.Negative => p.sub d.axis.unit

/-- The six directed axes, in the fixed order used by DirectedAxisArray. -/
def DirectedAxis.all : List DirectedAxis :=
  [⟨Axis.X, Direction.Negative⟩, ⟨Axis.X, Direction.Positive⟩,
   ⟨Axis.Y, Direction.Negative⟩, ⟨Axis.Y, Direction.Positive⟩,
   ⟨Axis.Z, Direction.Negative⟩, ⟨Axis.Z, Direction.Positive⟩]

/-! ## Uniform grid (Modelled from the spec §3: uniform_grid.rs is not among
the provided source files). -/

/-- Modelled from the spec: a uniform background grid with an origin, a number
of cells per dimension and a uniform cell edge length. -/
structure UniformGrid : Type where
  origin : R3
  n_cells_per_dim : I3
  cell_size : ℚ
  deriving DecidableEq, Repr

namespace UniformGrid

/-- Modelled from the spec: grid construction validates that every dimension
has at least one cell (construction with zero cells is an error). -/
def new (origin : R3) (n_cells_per_dim : I3) (cell_size : ℚ) : Option UniformGrid :=
  if 1 ≤ n_cells_per_dim.x ∧ 1 ≤ n_cells_per_dim.y ∧ 1 ≤ n_cells_per_dim.z then
    some ⟨origin, n_cells_per_dim, cell_size⟩
  else
    none

def cells_per_dim (g : UniformGrid) : I3 := g.n_cells_per_dim

/-- Modelled from the spec: points-per-dimension = cells-per-dimension + 1. -/
def points_per_dim (g : UniformGrid) : I3 :=
  ⟨g.n_cells_per_dim.x + 1, g.n_cells_per_dim.y + 1, g.n_cells_per_dim.z + 1⟩

/-- Modelled from the spec: a point index is valid when 0 ≤ component ≤
points-per-dim − 1. -/
def point_in_grid (g : UniformGrid) (p : I3) : Bool :=
  decide (0 ≤ p.x ∧ p.x < g.points_per_dim.x ∧ 0 ≤ p.y ∧ p.y < g.points_per_dim.y ∧
    0 ≤ p.z ∧ p.z < g.points_per_dim.z)

/-- Modelled from the spec: a cell index is valid when 0 ≤ component ≤
cells-per-dim − 1. -/
def cell_in_grid (g : UniformGrid) (c : I3) : Bool :=
  decide (0 ≤ c.x ∧ c.x < g.n_cells_per_dim.x ∧ 0 ≤ c.y ∧ c.y < g.n_cells_per_dim.y ∧
    0 ≤ c.z ∧ c.z < g.n_cells_per_dim.z)

/-- Modelled from the spec: point validation (UniformGrid::get_point). -/
def get_point (g : UniformGrid) (p : I3) : Option I3 :=
  if g.point_in_grid p then some p else none

/-- Modelled from the spec: the flat point index, lexicographic with k
outermost (a total-ordering bijection PointIndex ↔ I). -/
def flatten_point_index (g : UniformGrid) (p : I3) : ℤ :=
  p.x + g.points_per_dim.x * (p.y + g.points_per_dim.y * p.z)

/-- Modelled from the spec: the flat cell index, lexicographic with k
outermost. -/
def flatten_cell_index (g : UniformGrid) (c : I3) : ℤ :=
  c.x + g.n_cells_per_dim.x * (c.y + g.n_cells_per_dim.y * c.z)

/-- Modelled from the spec: inverse of the flat point index; absent when the
flat index does not denote a grid point.  (/ and % are Euclidean here, which
agrees with Rust's truncating operators on the non-negative operands that
occur for valid indices.) -/
def try_unflatten_point_index (g : UniformGrid) (i : ℤ) : Option I3 :=
  let npx := g.points_per_dim.x
  let npy := g.points_per_dim.y
  let npz := g.points_per_dim.z
  if 0 < npx ∧ 0 < npy ∧ 0 < npz then
    let p : I3 := ⟨i % npx, (i / npx) % npy, (i / npx) / npy⟩
    if 0 ≤ i ∧ p.z < npz then some p else none
  else
    none

/-- Modelled from the spec: inverse of the flat cell index. -/
def try_unflatten_cell_index (g : UniformGrid) (i : ℤ) : Option I3 :=
  let ncx := g.n_cells_per_dim.x
  let ncy := g.n_cells_per_dim.y
  let ncz := g.n_cells_per_dim.z
  if 0 < ncx ∧ 0 < ncy ∧ 0 < ncz then
    let c : I3 := ⟨i % ncx, (i / ncx) % ncy, (i / ncx) / ncy⟩
    if 0 ≤ i ∧ c.z < ncz then some c else none
  else
    none

/-- Modelled from the spec: coordinates of a grid point. -/
def point_coordinates (g : UniformGrid) (p : I3) : R3 :=
  ⟨g.origin.x + g.cell_size * p.x, g.origin.y + g.cell_size * p.y,
    g.origin.z + g.cell_size * p.z⟩

/-- Modelled from the spec: the neighbour of a point along a directed axis,
when it is still a grid point (part of the point neighbourhood enumeration). -/
def get_point_neighbor (g : UniformGrid) (p : I3) (d : DirectedAxis) : Option I3 :=
  let q := d.step p
  if g.point_in_grid q then some q else none

end UniformGrid

/-! Round-trip lemmas for the flat indices (spec §8, invariant 1). -/

theorem unflatten_flatten_point (g : UniformGrid) (p : I3)
    (hp : g.point_in_grid p = true) :
    g.try_unflatten_point_index (g.flatten_point_index p) = some p := by
  simp only [UniformGrid.point_in_grid, decide_eq_true_eq] at hp
  obtain ⟨hx0, hx1, hy0, hy1, hz0, hz1⟩ := hp
  have hnpx : 0 < g.points_per_dim.x := lt_of_le_of_lt hx0 hx1
  have hnpy : 0 < g.points_per_dim.y := lt_of_le_of_lt hy0 hy1
  have hnpz : 0 < g.points_per_dim.z := lt_of_le_of_lt hz0 hz1
  simp only [UniformGrid.try_unflatten_point_index, UniformGrid.flatten_point_index,
    hnpx, hnpy, hnpz, and_self, if_true, true_and]
  have hmod : (p.x + g.points_per_dim.x * (p.y + g.points_per_dim.y * p.z)) %
      g.points_per_dim.x = p.x := by
    rw [Int.add_mul_emod_self_left]
    exact Int.emod_eq_of_lt hx0 hx1
  have hdiv : (p.x + g.points_per_dim.x * (p.y + g.points_per_dim.y * p.z)) /
      g.points_per_dim.x = p.y + g.points_per_dim.y * p.z := by
    rw [Int.add_mul_ediv_left _ _ (ne_of_gt hnpx), Int.ediv_eq_zero_of_lt hx0 hx1, zero_add]
  have hmod2 : (p.y + g.points_per_dim.y * p.z) % g.points_per_dim.y = p.y := by
    rw [Int.add_mul_emod_self_left]
    exact Int.emod_eq_of_lt hy0 hy1
  have hdiv2 : (p.y + g.points_per_dim.y * p.z) / g.points_per_dim.y = p.z := by
    rw [Int.add_mul_ediv_left _ _ (ne_of_gt hnpy), Int.ediv_eq_zero_of_lt hy0 hy1, zero_add]
  have hpos : 0 ≤ p.x + g.points_per_dim.x * (p.y + g.points_per_dim.y * p.z) := by
    have h1 : 0 ≤ p.y + g.points_per_dim.y * p.z := by positivity
    positivity
  simp [hmod, hdiv, hmod2, hdiv2, hpos, hz1]

theorem unflatten_flatten_cell (g : UniformGrid) (c : I3)
    (hc : g.cell_in_grid c = true) :
    g.try_unflatten_cell_index (g.flatten_cell_index c) = some c := by
  simp only [UniformGrid.cell_in_grid, decide_eq_true_eq] at hc
  obtain ⟨hx0, hx1, hy0, hy1, hz0, hz1⟩ := hc
  have hnpx : 0 < g.n_cells_per_dim.x := lt_of_le_of_lt hx0 hx1
  have hnpy : 0 < g.n_cells_per_dim.y := lt_of_le_of_lt hy0 hy1
  have hnpz : 0 < g.n_cells_per_dim.z := lt_of_le_of_lt hz0 hz1
  simp only [UniformGrid.try_unflatten_cell_index, UniformGrid.flatten_cell_index,
    hnpx, hnpy, hnpz, and_self, if_true, true_and]
  have hmod : (c.x + g.n_cells_per_dim.x * (c.y + g.n_cells_per_dim.y * c.z)) %
      g.n_cells_per_dim.x = c.x := by
    rw [Int.add_mul_emod_self_left]
    exact Int.emod_eq_of_lt hx0 hx1
  have hdiv : (c.x + g.n_cells_per_dim.x * (c.y + g.n_cells_per_dim.y * c.z)) /
      g.n_cells_per_dim.x = c.y + g.n_cells_per_dim.y * c.z := by
    rw [Int.add_mul_ediv_left _ _ (ne_of_gt hnpx), Int.ediv_eq_zero_of_lt hx0 hx1, zero_add]
  have hmod2 : (c.y + g.n_cells_per_dim.y * c.z) % g.n_cells_per_dim.y = c.y := by
    rw [Int.add_mul_emod_self_left]
    exact Int.emod_eq_of_lt hy0 hy1
  have hdiv2 : (c.y + g.n_cells_per_dim.y * c.z) / g.n_cells_per_dim.y = c.z := by
    rw [Int.add_mul_ediv_left _ _ (ne_of_gt hnpy), Int.ediv_eq_zero_of_lt hy0 hy1, zero_add]
  have hpos : 0 ≤ c.x + g.n_cells_per_dim.x * (c.y + g.n_cells_per_dim.y * c.z) := by
    have h1 : 0 ≤ c.y + g.n_cells_per_dim.y * c.z := by positivity
    positivity
  simp [hmod, hdiv, hmod2, hdiv2, hpos, hz1]

theorem flatten_point_injective (g : UniformGrid) (p q : I3)
    (hp : g.point_in_grid p = true) (hq : g.point_in_grid q = true)
    (h : g.flatten_point_index p = g.flatten_point_index q) : p = q := by
  have h1 := unflatten_flatten_point g p hp
  have h2 := unflatten_flatten_point g q hq
  rw [h] at h1
  rw [h1] at h2
  exact Option.some_injective _ h2

theorem flatten_cell_injective (g : UniformGrid) (c c' : I3)
    (hc : g.cell_in_grid c = true) (hc' : g.cell_in_grid c' = true)
    (h : g.flatten_cell_index c = g.flatten_cell_index c') : c = c' := by
  have h1 := unflatten_flatten_cell g c hc
  have h2 := unflatten_flatten_cell g c' hc'
  rw [h] at h1
  rw [h1] at h2
  exact Option.some_injective _ h2

/-! ## Marching-cubes local cell topology (Modelled from the spec §3/§4.1:
the local corner and edge orders are the MC-table convention, pinned down by
the unit test test_interpolate_cell_data in marching_cubes.rs). -/

/-- Modelled from the spec: offset of each of the 8 local corners of a cell,
in the marching-cubes order. -/
def corner_offset : Fin 8 → I3
  | 0 => ⟨0, 0, 0⟩
  | 1 => ⟨1, 0, 0⟩
  | 2 => ⟨1, 1, 0⟩
  | 3 => ⟨0, 1, 0⟩
  | 4 => ⟨0, 0, 1⟩
  | 5 => ⟨1, 0, 1⟩
  | 6 => ⟨1, 1, 1⟩
  | 7 => ⟨0, 1, 1⟩

/-- Modelled from the spec: offset (inside the cell) of the axis-low endpoint
of each of the 12 local edges, in the marching-cubes order. -/
def edge_low_offset : Fin 12 → I3
  | 0 => ⟨0, 0, 0⟩
  | 1 => ⟨1, 0, 0⟩
  | 2 => ⟨0, 1, 0⟩
  | 3 => ⟨0, 0, 0⟩
  | 4 => ⟨0, 0, 1⟩
  | 5 => ⟨1, 0, 1⟩
  | 6 => ⟨0, 1, 1⟩
  | 7 => ⟨0, 0, 1⟩
  | 8 => ⟨0, 0, 0⟩
  | 9 => ⟨1, 0, 0⟩
  | 10 => ⟨1, 1, 0⟩
  | 11 => ⟨0, 1, 0⟩

/-- Modelled from the spec: the axis of each of the 12 local edges. -/
def edge_axis : Fin 12 → Axis
  | 0 => Axis.X
  | 1 => Axis.Y
  | 2 => Axis.X
  | 3 => Axis.Y
  | 4 => Axis.X
  | 5 => Axis.Y
  | 6 => Axis.X
  | 7 => Axis.Y
  | 8 => Axis.Z
  | 9 => Axis.Z
  | 10 => Axis.Z
  | 11 => Axis.Z

/-- Modelled from the spec: an edge index is an ordered pair of points along
one axis, origin-low; it is represented by its low endpoint and its axis. -/
structure EdgeIndex : Type where
  origin : I3
  axis : Axis
  deriving DecidableEq, Repr

/-- Modelled from the spec: the up-to-4 cells adjacent to an edge (the valid
ones among the four lattice cells around it). -/
def cells_adjacent_to_edge (g : UniformGrid) (e : EdgeIndex) : List I3 :=
  let a12 := e.axis.orthogonal_axes
  [((e.origin.sub a12.1.unit).sub a12.2.unit),
   (e.origin.sub a12.1.unit),
   (e.origin.sub a12.2.unit),
   e.origin].filter (fun c => g.cell_in_grid c)

/-- Modelled from the spec: the local edge index of a global edge within a
cell (CellIndex::local_edge_index_of). -/
def local_edge_index_of (c : I3) (e : EdgeIndex) : Option (Fin 12) :=
  (List.finRange 12).find? (fun k =>
    decide (c.add (edge_low_offset k) = e.origin ∧ edge_axis k = e.axis))

/-- Modelled from the spec: the local corner index of a global point within a
cell (CellIndex::local_point_index_of). -/
def local_point_index_of (c : I3) (p : I3) : Option (Fin 8) :=
  (List.finRange 8).find? (fun k => decide (c.add (corner_offset k) = p))

/-- Modelled from the spec: the global point index of a local corner of a cell
(CellIndex::global_point_index_of). -/
def global_point_index_of (c : I3) (k : Fin 8) : I3 := c.add (corner_offset k)

/-! ## Marching-cubes cell data (marching_cubes.rs) -/

/-- Flag indicating whether a vertex is above or below the iso-surface. -/
inductive RelativeToThreshold : Type
  | Below
  | Indeterminate
  | Above
  deriving DecidableEq, Repr

/-- Data for a single cell required by marching cubes. -/
structure CellData : Type where
  /-- The interpolated iso-surface vertex per edge if the edge crosses the
  iso-surface. -/
  iso_surface_vertices : Fin 12 → Option ℕ
  /-- Flags indicating whether a corner vertex is above or below the
  iso-surface threshold. -/
  corner_above_threshold : Fin 8 → RelativeToThreshold

instance : DecidableEq CellData := fun a b =>
  decidable_of_iff (a.iso_surface_vertices = b.iso_surface_vertices ∧
      a.corner_above_threshold = b.corner_above_threshold)
    (by cases a; cases b; simp)

/-- Default CellData: no vertices, all corners indeterminate. -/
def CellData.empty : CellData :=
  { iso_surface_vertices := fun _ => none
    corner_above_threshold := fun _ => RelativeToThreshold.Indeterminate }

/-- The sparse density map (flat point index → scalar value); iterated in list
order (the source hash map has no specified order and the algorithm is
insensitive to it). -/
abbrev DensityMap : Type := List (ℤ × ℚ)

/-- DensityMap::get. -/
def DensityMap.get (dm : DensityMap) (i : ℤ) : Option ℚ := mlookup dm i

/-- State threaded through the vertex-interpolation passes: the vertex buffer
and the per-cell data map (MarchingCubesInput). -/
structure MCState : Type where
  vertices : List R3
  cell_data : List (ℤ × CellData)

/-- The interpolation parameter of an edge crossing, exactly as computed in
interpolate_points_to_cell_data:
alpha = (iso_surface_threshold - point_value) / (neighbor_value - point_value). -/
def mc_alpha (iso_surface_threshold point_value neighbor_value : ℚ) : ℚ :=
  (iso_surface_threshold - point_value) / (neighbor_value - point_value)

/-- Linear interpolation of the iso-surface vertex coordinates:
point_coords * (1 - alpha) + neighbor_coords * alpha. -/
def interpolate_vertex (g : UniformGrid) (p q : I3) (alpha : ℚ) : R3 :=
  let pc := g.point_coordinates p
  let qc := g.point_coordinates q
  ⟨pc.x * (1 - alpha) + qc.x * alpha,
   pc.y * (1 - alpha) + qc.y * alpha,
   pc.z * (1 - alpha) + qc.z * alpha⟩

/-- The per-cell bookkeeping of interpolate_points_to_cell_data once an edge
crossing the iso-surface has been found: for each cell adjacent to the edge,
record the interpolated vertex index on the corresponding local edge and mark
the above-threshold endpoint q as Above.  (The source asserts that no vertex
was recorded on that local edge before; the assertion is modelled by the
overwrite.  The source unwraps the local indices, which exist for adjacent
cells; a failing unwrap is modelled by leaving the entry unchanged.) -/
def record_edge_crossing (g : UniformGrid) (e : EdgeIndex) (q : I3) (vi : ℕ)
    (cells : List (ℤ × CellData)) : List (ℤ × CellData) :=
  (cells_adjacent_to_edge g e).foldl (fun m c =>
    mupdate m (g.flatten_cell_index c)
      (fun d =>
        match local_edge_index_of c e, local_point_index_of c q with
        | some le, some lp =>
          { iso_surface_vertices := Function.update d.iso_surface_vertices le (some vi)
            corner_above_threshold :=
              Function.update d.corner_above_threshold lp RelativeToThreshold.Above }
        | _, _ => d)
      CellData.empty) cells

/-- One iteration of the neighbour-edge loop of Pass A of
interpolate_points_to_cell_data, for the point p with density value vp. -/
def step_neighbor (g : UniformGrid) (dm : DensityMap) (iso_surface_threshold : ℚ)
    (p : I3) (vp : ℚ) (st : MCState) (dir : DirectedAxis) : MCState :=
  match g.get_point_neighbor p dir with
  | none => st
  | some q =>
    match dm.get (g.flatten_point_index q) with
    | none =>
      -- neighbour absent from the density map: no crossing (consistency invariant)
      st
    | some vq =>
      if vq > iso_surface_threshold then
        let e : EdgeIndex :=
          if dir.direction.is_positive then ⟨p, dir.axis⟩ else ⟨q, dir.axis⟩
        let alpha := mc_alpha iso_surface_threshold vp vq
        let vi := st.vertices.length
        { vertices := st.vertices ++ [interpolate_vertex g p q alpha]
          cell_data := record_edge_crossing g e q vi st.cell_data }
      else st

/-- One density-map entry of Pass A of interpolate_points_to_cell_data: points
above the threshold are skipped, all neighbour edges of the others are
examined.  (The source panics when the flat index does not belong to the grid;
modelled by skipping such an entry.) -/
def pass_a_step (g : UniformGrid) (dm : DensityMap) (iso_surface_threshold : ℚ)
    (st : MCState) (entry : ℤ × ℚ) : MCState :=
  if entry.2 > iso_surface_threshold then st
  else
    match g.try_unflatten_point_index entry.1 with
    | none => st
    | some p => DirectedAxis.all.foldl (step_neighbor g dm iso_surface_threshold p entry.2) st

/-- Pass A of interpolate_points_to_cell_data (generate_iso_surface_vertices). -/
def generate_iso_surface_vertices (g : UniformGrid) (dm : DensityMap)
    (iso_surface_threshold : ℚ) (st : MCState) : MCState :=
  dm.foldl (pass_a_step g dm iso_surface_threshold) st

/-- Pass B of interpolate_points_to_cell_data for a single cell: corners
already marked Above are kept, the remaining corners are classified by looking
up their density value (absent means below). -/
def pass_b_cell (g : UniformGrid) (dm : DensityMap) (iso_surface_threshold : ℚ)
    (flat_cell_index : ℤ) (d : CellData) : CellData :=
  match g.try_unflatten_cell_index flat_cell_index with
  | none => d
  | some c =>
    { d with
      corner_above_threshold := fun k =>
        match d.corner_above_threshold k with
        | RelativeToThreshold.Above => RelativeToThreshold.Above
        | _ =>
          match dm.get (g.flatten_point_index (global_point_index_of c k)) with
          | some point_value =>
            if point_value > iso_surface_threshold then RelativeToThreshold.Above
            else RelativeToThreshold.Below
          | none => RelativeToThreshold.Below }

/-- Pass B of interpolate_points_to_cell_data
(relative_to_threshold_postprocessing). -/
def relative_to_threshold_postprocessing (g : UniformGrid) (dm : DensityMap)
    (iso_surface_threshold : ℚ) (cells : List (ℤ × CellData)) : List (ℤ × CellData) :=
  cells.map (fun e => (e.1, pass_b_cell g dm iso_surface_threshold e.1 e.2))

/-- interpolate_points_to_cell_data: Pass A followed by Pass B, appending the
interpolated vertices to the given vertex buffer and returning the vertex
buffer together with the cell-data map (MarchingCubesInput). -/
def interpolate_points_to_cell_data (g : UniformGrid) (dm : DensityMap)
    (iso_surface_threshold : ℚ) (vertices : List R3) : MCState :=
  let st := generate_iso_surface_vertices g dm iso_surface_threshold ⟨vertices, []⟩
  { vertices := st.vertices
    cell_data := relative_to_threshold_postprocessing g dm iso_surface_threshold st.cell_data }

/-! ## Concrete data of the source unit test (test_interpolate_cell_data) -/

/-- The unit-cube grid of the source unit test: origin 0, one cell per
dimension, cell size 1. -/
def test_grid : UniformGrid := ⟨⟨0, 0, 0⟩, ⟨1, 1, 1⟩, 1⟩

/-- The density values of the source unit test, scaled by 4 so that every
scalar is an integer (rational-literal comparisons are kernel-evaluable while
general ℚ arithmetic is not; scaling by a positive constant preserves every
order relation the algorithm inspects).  Flat point indices of the corner list
[(0,0,0) ↦ 0, (1,0,0) ↦ 3, (1,1,0) ↦ 4, (0,1,0) ↦ 2, (0,0,1) ↦ 0,
(1,0,1) ↦ 0, (1,1,1) ↦ 4, (0,1,1) ↦ 0]. -/
def test_density_map : DensityMap :=
  [(0, 0), (1, 3), (3, 4), (2, 2), (4, 0), (5, 0), (7, 4), (6, 0)]

/-- The marching-cubes input computed for the (scaled) source unit test data
with threshold 1 (the source's 0.25, scaled by 4). -/
def test_mc_state : MCState := interpolate_points_to_cell_data test_grid test_density_map 1 []

/-- The embedding reproduces the assertions of the source's own unit test
test_interpolate_cell_data: one cell, six interpolated vertices, corner signs
[F,T,T,T,F,F,T,F] and vertices on exactly the local edges 0, 3, 5, 6, 9, 11. -/
theorem interpolate_reproduces_source_unit_test :
    test_mc_state.vertices.length = 6 ∧
    test_mc_state.cell_data.map Prod.fst = [0] ∧
    ((List.finRange 8).map (fun k =>
        match mlookup test_mc_state.cell_data 0 with
        | some d => d.corner_above_threshold k
        | none => RelativeToThreshold.Indeterminate)
      = [RelativeToThreshold.Below, RelativeToThreshold.Above, RelativeToThreshold.Above,
         RelativeToThreshold.Above, RelativeToThreshold.Below, RelativeToThreshold.Below,
         RelativeToThreshold.Above, RelativeToThreshold.Below]) ∧
    ((List.finRange 12).map (fun k =>
        match mlookup test_mc_state.cell_data 0 with
        | some d => (d.iso_surface_vertices k).isSome
        | none => false)
      = [true, false, false, true, false, true, true, false, false, true, false, true]) := by
  decide

/-! ## Invariants of the interpolation passes -/

theorem mem_mupdate_cases {α β : Type} [DecidableEq α] (m : List (α × β)) (k : α)
    (f : β → β) (dflt : β) (e : α × β) (h : e ∈ mupdate m k f dflt) :
    e ∈ m ∨ (e.1 = k ∧ ∃ v0, e.2 = f v0 ∧ ((k, v0) ∈ m ∨ v0 = dflt)) := by
  induction m with
  | nil =>
    simp [mupdate] at h
    exact Or.inr ⟨by simp [h], dflt, by simp [h], Or.inr rfl⟩
  | cons hd tl ih =>
    cases hd with
    | mk k0 v0 =>
      by_cases hk : k = k0
      · subst hk
        simp only [mupdate, if_pos rfl] at h
        rcases List.mem_cons.mp h with h1 | h2
        · exact Or.inr ⟨by simp [h1], v0, by simp [h1], Or.inl (by simp)⟩
        · exact Or.inl (List.mem_cons_of_mem _ h2)
      · simp only [mupdate, if_neg hk] at h
        rcases List.mem_cons.mp h with h1 | h2
        · exact Or.inl (by simp [h1])
        · rcases ih h2 with h3 | ⟨h4, v1, h5, h6⟩
          · exact Or.inl (List.mem_cons_of_mem _ h3)
          · refine Or.inr ⟨h4, v1, h5, ?_⟩
            rcases h6 with h7 | h7
            · exact Or.inl (List.mem_cons_of_mem _ h7)
            · exact Or.inr h7

/-- All cell-data keys were produced by flattening a valid cell index. -/
def GoodKeys (g : UniformGrid) (m : List (ℤ × CellData)) : Prop :=
  ∀ e ∈ m, ∃ c, g.cell_in_grid c = true ∧ e.1 = g.flatten_cell_index c

theorem goodKeys_record_edge_crossing (g : UniformGrid) (e : EdgeIndex) (q : I3) (vi : ℕ)
    (cells : List (ℤ × CellData)) (h : GoodKeys g cells) :
    GoodKeys g (record_edge_crossing g e q vi cells) := by
  unfold record_edge_crossing
  have hadj : ∀ c ∈ cells_adjacent_to_edge g e, g.cell_in_grid c = true := by
    intro c hc
    exact (List.mem_filter.mp hc).2
  revert h
  generalize cells_adjacent_to_edge g e = cs at hadj
  induction cs generalizing cells with
  | nil => intro h; simpa using h
  | cons c cs ih =>
    intro h
    simp only [List.foldl_cons]
    refine ih _ (fun c' hc' => hadj c' (List.mem_cons_of_mem _ hc')) ?_
    intro en hen
    rcases mem_mupdate_cases _ _ _ _ _ hen with h1 | ⟨h2, _, _, _⟩
    · exact h en h1
    · exact ⟨c, hadj c (by simp), h2⟩

theorem goodKeys_step_neighbor (g : UniformGrid) (dm : DensityMap) (τ : ℚ) (p : I3)
    (vp : ℚ) (st : MCState) (dir : DirectedAxis) (h : GoodKeys g st.cell_data) :
    GoodKeys g (step_neighbor g dm τ p vp st dir).cell_data := by
  unfold step_neighbor
  cases g.get_point_neighbor p dir with
  | none => exact h
  | some q =>
    simp only
    cases dm.get (g.flatten_point_index q) with
    | none => exact h
    | some vq =>
      simp only
      by_cases hvq : vq > τ
      · simp only [if_pos hvq]
        exact goodKeys_record_edge_crossing _ _ _ _ _ h
      · simp only [if_neg hvq]
        exact h

theorem goodKeys_pass_a_step (g : UniformGrid) (dm : DensityMap) (τ : ℚ)
    (st : MCState) (entry : ℤ × ℚ) (h : GoodKeys g st.cell_data) :
    GoodKeys g (pass_a_step g dm τ st entry).cell_data := by
  unfold pass_a_step
  by_cases he : entry.2 > τ
  · simp only [if_pos he]; exact h
  · simp only [if_neg he]
    cases g.try_unflatten_point_index entry.1 with
    | none => exact h
    | some p =>
      simp only
      generalize DirectedAxis.all = dirs
      induction dirs generalizing st with
      | nil => exact h
      | cons d ds ih =>
        simp only [List.foldl_cons]
        exact ih _ (goodKeys_step_neighbor g dm τ p entry.2 st d h)

theorem goodKeys_fold_pass_a (g : UniformGrid) (dm : DensityMap) (τ : ℚ)
    (entries : List (ℤ × ℚ)) (st : MCState) (h : GoodKeys g st.cell_data) :
    GoodKeys g (entries.foldl (pass_a_step g dm τ) st).cell_data := by
  induction entries generalizing st with
  | nil => exact h
  | cons entry rest ih =>
    simp only [List.foldl_cons]
    exact ih _ (goodKeys_pass_a_step g dm τ st entry h)

theorem goodKeys_generate (g : UniformGrid) (dm : DensityMap) (τ : ℚ) (st : MCState)
    (h : GoodKeys g st.cell_data) :
    GoodKeys g (generate_iso_surface_vertices g dm τ st).cell_data :=
  goodKeys_fold_pass_a g dm τ dm st h

theorem mlookup_mem {α β : Type} [DecidableEq α] (m : List (α × β)) (k : α) (v : β)
    (h : mlookup m k = some v) : (k, v) ∈ m := by
  induction m with
  | nil => simp [mlookup] at h
  | cons hd tl ih =>
    cases hd with
    | mk k0 v0 =>
      by_cases hk : k = k0
      · subst hk
        simp [mlookup] at h
        simp [h]
      · simp [mlookup, hk] at h
        exact List.mem_cons_of_mem _ (ih h)

/-- All iso-surface vertex indices recorded in a cell-data map satisfy P. -/
def SlotsSat (P : ℕ → Prop) (m : List (ℤ × CellData)) : Prop :=
  ∀ e ∈ m, ∀ k v, e.2.iso_surface_vertices k = some v → P v

theorem slotsSat_record_edge_crossing (g : UniformGrid) (e : EdgeIndex) (q : I3) (vi : ℕ)
    (cells : List (ℤ × CellData)) (P : ℕ → Prop) (h : SlotsSat P cells) (hvi : P vi) :
    SlotsSat P (record_edge_crossing g e q vi cells) := by
  unfold record_edge_crossing
  generalize cells_adjacent_to_edge g e = cs
  induction cs generalizing cells with
  | nil => simpa using h
  | cons c cs ih =>
    simp only [List.foldl_cons]
    refine ih _ ?_
    intro en hen k v hv
    rcases mem_mupdate_cases _ _ _ _ _ hen with h1 | ⟨_, v0, h2, h3⟩
    · exact h en h1 k v hv
    · rw [h2] at hv
      have hval : ∀ k' v', v0.iso_surface_vertices k' = some v' → P v' := by
        rcases h3 with h4 | h4
        · exact fun k' v' hv' => h _ h4 k' v' hv'
        · intro k' v' hv'
          rw [h4] at hv'
          simp [CellData.empty] at hv'
      cases hle : local_edge_index_of c e with
      | none => simp [hle] at hv; exact hval k v hv
      | some le =>
        cases hlp : local_point_index_of c q with
        | none => simp [hle, hlp] at hv; exact hval k v hv
        | some lp =>
          simp only [hle, hlp] at hv
          by_cases hk : k = le
          · subst hk
            simp [Function.update_same] at hv
            rw [← hv]
            exact hvi
          · rw [show (Function.update v0.iso_surface_vertices le (some vi)) k =
                v0.iso_surface_vertices k from Function.update_noteq hk _ _] at hv
            exact hval k v hv

theorem slotsSat_mono (P Q : ℕ → Prop) (m : List (ℤ × CellData))
    (h : SlotsSat P m) (hpq : ∀ v, P v → Q v) : SlotsSat Q m :=
  fun e he k v hv => hpq v (h e he k v hv)

/-- The vertex-buffer bound invariant of Pass A: every recorded iso-surface
vertex index points into the vertex buffer. -/
def VertexIndexBound (st : MCState) : Prop :=
  SlotsSat (fun v => v < st.vertices.length) st.cell_data

theorem vertexIndexBound_step_neighbor (g : UniformGrid) (dm : DensityMap) (τ : ℚ)
    (p : I3) (vp : ℚ) (st : MCState) (dir : DirectedAxis) (h : VertexIndexBound st) :
    VertexIndexBound (step_neighbor g dm τ p vp st dir) := by
  unfold step_neighbor
  cases g.get_point_neighbor p dir with
  | none => exact h
  | some q =>
    simp only
    cases dm.get (g.flatten_point_index q) with
    | none => exact h
    | some vq =>
      simp only
      by_cases hvq : vq > τ
      · simp only [if_pos hvq]
        unfold VertexIndexBound
        simp only [List.length_append, List.length_singleton]
        refine slotsSat_record_edge_crossing _ _ _ _ _ _ ?_ (by omega)
        exact slotsSat_mono _ _ _ h (by omega)
      · simp only [if_neg hvq]
        exact h

theorem vertexIndexBound_pass_a_step (g : UniformGrid) (dm : DensityMap) (τ : ℚ)
    (st : MCState) (entry : ℤ × ℚ) (h : VertexIndexBound st) :
    VertexIndexBound (pass_a_step g dm τ st entry) := by
  unfold pass_a_step
  by_cases he : entry.2 > τ
  · simp only [if_pos he]; exact h
  · simp only [if_neg he]
    cases g.try_unflatten_point_index entry.1 with
    | none => exact h
    | some p =>
      simp only
      generalize DirectedAxis.all = dirs
      induction dirs generalizing st with
      | nil => exact h
      | cons d ds ih =>
        simp only [List.foldl_cons]
        exact ih _ (vertexIndexBound_step_neighbor g dm τ p entry.2 st d h)

theorem vertexIndexBound_fold_pass_a (g : UniformGrid) (dm : DensityMap) (τ : ℚ)
    (entries : List (ℤ × ℚ)) (st : MCState) (h : VertexIndexBound st) :
    VertexIndexBound (entries.foldl (pass_a_step g dm τ) st) := by
  induction entries generalizing st with
  | nil => exact h
  | cons entry rest ih =>
    simp only [List.foldl_cons]
    exact ih _ (vertexIndexBound_pass_a_step g dm τ st entry h)

/-- Pass B only reclassifies corner flags; the iso-surface vertex slots of a
cell are untouched. -/
theorem pass_b_cell_iso_eq (g : UniformGrid) (dm : DensityMap) (τ : ℚ)
    (fc : ℤ) (d : CellData) :
    (pass_b_cell g dm τ fc d).iso_surface_vertices = d.iso_surface_vertices := by
  unfold pass_b_cell
  cases g.try_unflatten_cell_index fc <;> rfl

/-- Membership in the Pass B output comes from membership in its input. -/
theorem mem_postprocessing (g : UniformGrid) (dm : DensityMap) (τ : ℚ)
    (cells : List (ℤ × CellData)) (e : ℤ × CellData)
    (he : e ∈ relative_to_threshold_postprocessing g dm τ cells) :
    ∃ d0, (e.1, d0) ∈ cells ∧ e.2 = pass_b_cell g dm τ e.1 d0 := by
  unfold relative_to_threshold_postprocessing at he
  obtain ⟨a, ha, hae⟩ := List.mem_map.mp he
  exact ⟨a.2, by rw [← hae]; exact ⟨ha, rfl⟩⟩

/-- C9: every vertex index recorded as Some in any CellData of the marching
cubes input produced by interpolate_points_to_cell_data is strictly less than
the length of the vertex buffer, so triangle emission only references valid
vertices. -/
theorem iso_surface_vertex_indices_in_bounds (g : UniformGrid) (dm : DensityMap)
    (iso_surface_threshold : ℚ) (vertices : List R3) (e : ℤ × CellData)
    (he : e ∈ (interpolate_points_to_cell_data g dm iso_surface_threshold vertices).cell_data)
    (k : Fin 12) (vi : ℕ) (hv : e.2.iso_surface_vertices k = some vi) :
    vi < (interpolate_points_to_cell_data g dm iso_surface_threshold vertices).vertices.length := by
  unfold interpolate_points_to_cell_data at he ⊢
  simp only at he ⊢
  obtain ⟨d0, hd0, he2⟩ := mem_postprocessing g dm iso_surface_threshold _ e he
  rw [he2, pass_b_cell_iso_eq] at hv
  have hbound : VertexIndexBound (generate_iso_surface_vertices g dm iso_surface_threshold
      ⟨vertices, []⟩) := by
    unfold generate_iso_surface_vertices
    exact vertexIndexBound_fold_pass_a g dm iso_surface_threshold dm ⟨vertices, []⟩
      (by intro e he; simp at he)
  exact hbound (e.1, d0) hd0 k vi hv

/-- The single cell entry of the unit-test marching-cubes input. -/
def test_cell_entry : ℤ × CellData := test_mc_state.cell_data.getD 0 (0, CellData.empty)

/-- Witness for C9 at the unit-test input: the vertex recorded on local edge 0
of the unit-test cell is a valid index into the vertex buffer. -/
theorem iso_surface_vertex_indices_in_bounds_witness :
    (test_cell_entry.2.iso_surface_vertices 0).getD 99 < test_mc_state.vertices.length :=
  iso_surface_vertex_indices_in_bounds test_grid test_density_map 1 [] test_cell_entry
    (by decide) 0 ((test_cell_entry.2.iso_surface_vertices 0).getD 99) (by decide)

/-- C2: after Pass A and Pass B of interpolate_points_to_cell_data, no corner
flag of any CellData entry is Indeterminate. -/
theorem corner_flags_determined_after_interpolation (g : UniformGrid) (dm : DensityMap)
    (iso_surface_threshold : ℚ) (vertices : List R3) (e : ℤ × CellData)
    (he : e ∈ (interpolate_points_to_cell_data g dm iso_surface_threshold vertices).cell_data)
    (k : Fin 8) :
    e.2.corner_above_threshold k ≠ RelativeToThreshold.Indeterminate := by
  unfold interpolate_points_to_cell_data at he
  simp only at he
  obtain ⟨d0, hd0, he2⟩ := mem_postprocessing g dm iso_surface_threshold _ e he
  have hgood : GoodKeys g (generate_iso_surface_vertices g dm iso_surface_threshold
      ⟨vertices, []⟩).cell_data :=
    goodKeys_generate g dm iso_surface_threshold ⟨vertices, []⟩ (by intro e he; simp at he)
  obtain ⟨c, hc, hfc⟩ := hgood (e.1, d0) hd0
  rw [he2]
  unfold pass_b_cell
  rw [hfc, unflatten_flatten_cell g c hc]
  simp only
  cases hflag : d0.corner_above_threshold k with
  | Above => simp [hflag]
  | Below =>
    simp only [hflag]
    cases dm.get (g.flatten_point_index (global_point_index_of c k)) with
    | none => simp
    | some v => by_cases hv : v > iso_surface_threshold <;> simp [hv]
  | Indeterminate =>
    simp only [hflag]
    cases dm.get (g.flatten_point_index (global_point_index_of c k)) with
    | none => simp
    | some v => by_cases hv : v > iso_surface_threshold <;> simp [hv]

/-- Witness for C2 at the unit-test input: corner 0 of the unit-test cell is
not Indeterminate. -/
theorem corner_flags_determined_after_interpolation_witness :
    test_cell_entry.2.corner_above_threshold 0 ≠ RelativeToThreshold.Indeterminate :=
  corner_flags_determined_after_interpolation test_grid test_density_map 1 []
    test_cell_entry (by decide) 0

/-- C3 (counterexample): at the admissible Pass A inputs point value 0,
neighbour value 1 and threshold 0 (the point value equals the threshold and is
processed, the neighbour is above), the interpolation parameter is 0, which is
not in the half-open interval (0, 1] claimed by the spec. -/
theorem mc_alpha_claim_counterexample :
    (0 : ℚ) ≤ 0 ∧ (0 : ℚ) < 1 ∧ mc_alpha 0 0 1 = 0 ∧
      ¬(0 < mc_alpha 0 0 1 ∧ mc_alpha 0 0 1 ≤ 1) := by
  unfold mc_alpha
  norm_num

/-- C3 (amended): for every processed density-map entry with value vp ≤ τ and
neighbour value vq > τ, the interpolation parameter
alpha = (τ − vp)/(vq − vp) computed in Pass A lies in the half-open
interval [0, 1). -/
theorem mc_alpha_mem_Ico (iso_surface_threshold point_value neighbor_value : ℚ)
    (h1 : point_value ≤ iso_surface_threshold)
    (h2 : neighbor_value > iso_surface_threshold) :
    0 ≤ mc_alpha iso_surface_threshold point_value neighbor_value ∧
      mc_alpha iso_surface_threshold point_value neighbor_value < 1 := by
  unfold mc_alpha
  have hd : 0 < neighbor_value - point_value := by linarith
  constructor
  · exact div_nonneg (by linarith) (le_of_lt hd)
  · rw [div_lt_one hd]
    linarith

/-- Witness for the amended C3 at threshold 1, point value 0, neighbour
value 2. -/
theorem mc_alpha_mem_Ico_witness :
    0 ≤ mc_alpha 1 0 2 ∧ mc_alpha 1 0 2 < 1 :=
  mc_alpha_mem_Ico 1 0 2 (by norm_num) (by norm_num)

/-! ## Shared-edge vertex agreement (machinery for claim C1) -/

theorem i3_eq_of_components (a b : I3) (hx : a.x = b.x) (hy : a.y = b.y) (hz : a.z = b.z) :
    a = b := by
  cases a; cases b; simp_all

theorem find_local_edge (c : I3) (e : EdgeIndex) (k : Fin 12)
    (h1 : c.add (edge_low_offset k) = e.origin) (h2 : edge_axis k = e.axis) :
    ∃ k', local_edge_index_of c e = some k' := by
  have hsome : (local_edge_index_of c e).isSome = true := by
    unfold local_edge_index_of
    rw [List.find?_isSome]
    exact ⟨k, List.mem_finRange k, by simp [h1, h2]⟩
  exact Option.isSome_iff_exists.mp hsome

theorem find_local_point (c : I3) (p : I3) (k : Fin 8)
    (h1 : c.add (corner_offset k) = p) :
    ∃ k', local_point_index_of c p = some k' := by
  have hsome : (local_point_index_of c p).isSome = true := by
    unfold local_point_index_of
    rw [List.find?_isSome]
    exact ⟨k, List.mem_finRange k, by simp [h1]⟩
  exact Option.isSome_iff_exists.mp hsome

/-- A successful local edge index determines the global edge. -/
theorem local_edge_index_spec (c : I3) (e : EdgeIndex) (k : Fin 12)
    (h : local_edge_index_of c e = some k) :
    c.add (edge_low_offset k) = e.origin ∧ edge_axis k = e.axis := by
  have := List.find?_some h
  simpa using this

/-- Two distinct global edges occupy distinct local edge slots of a common
cell. -/
theorem local_edge_index_injective (c : I3) (e e' : EdgeIndex) (k : Fin 12)
    (h : local_edge_index_of c e = some k) (h' : local_edge_index_of c e' = some k) :
    e = e' := by
  obtain ⟨h1, h2⟩ := local_edge_index_spec c e k h
  obtain ⟨h1', h2'⟩ := local_edge_index_spec c e' k h'
  cases e; cases e'
  simp_all

/-- Membership in the adjacent-cell list, unfolded. -/
theorem mem_cells_adjacent (g : UniformGrid) (e : EdgeIndex) (c : I3)
    (h : c ∈ cells_adjacent_to_edge g e) :
    g.cell_in_grid c = true ∧
      (c = (e.origin.sub (e.axis.orthogonal_axes.1.unit)).sub (e.axis.orthogonal_axes.2.unit) ∨
       c = e.origin.sub (e.axis.orthogonal_axes.1.unit) ∨
       c = e.origin.sub (e.axis.orthogonal_axes.2.unit) ∨
       c = e.origin) := by
  unfold cells_adjacent_to_edge at h
  have h1 := List.mem_filter.mp h
  refine ⟨h1.2, ?_⟩
  have h2 := h1.1
  simp only [List.mem_cons, List.mem_singleton] at h2
  tauto

/-- For every cell adjacent to an edge and every endpoint q of the edge, the
cell has a local edge slot for the edge and a local corner for q. -/
theorem adjacent_cell_slots (g : UniformGrid) (e : EdgeIndex) (q c : I3)
    (hq : q = e.origin ∨ q = e.origin.add e.axis.unit)
    (hc : c ∈ cells_adjacent_to_edge g e) :
    g.cell_in_grid c = true ∧ (∃ k, local_edge_index_of c e = some k) ∧
      (∃ k', local_point_index_of c q = some k') := by
  obtain ⟨hing, hcases⟩ := mem_cells_adjacent g e c hc
  refine ⟨hing, ?_, ?_⟩
  · -- local edge slot
    cases ha : e.axis <;> rw [ha] at hcases <;>
      simp only [Axis.orthogonal_axes, Axis.unit] at hcases <;>
      rcases hcases with h | h | h | h <;> subst h
    · exact find_local_edge _ _ 6 (i3_eq_of_components _ _ (by simp [I3.add, I3.sub, edge_low_offset]) (by simp [I3.add, I3.sub, edge_low_offset]) (by simp [I3.add, I3.sub, edge_low_offset])) (by simp [edge_axis, ha])
    · exact find_local_edge _ _ 2 (i3_eq_of_components _ _ (by simp [I3.add, I3.sub, edge_low_offset]) (by simp [I3.add, I3.sub, edge_low_offset]) (by simp [I3.add, I3.sub, edge_low_offset])) (by simp [edge_axis, ha])
    · exact find_local_edge _ _ 4 (i3_eq_of_components _ _ (by simp [I3.add, I3.sub, edge_low_offset]) (by simp [I3.add, I3.sub, edge_low_offset]) (by simp [I3.add, I3.sub, edge_low_offset])) (by simp [edge_axis, ha])
    · exact find_local_edge _ _ 0 (i3_eq_of_components _ _ (by simp [I3.add, I3.sub, edge_low_offset]) (by simp [I3.add, I3.sub, edge_low_offset]) (by simp [I3.add, I3.sub, edge_low_offset])) (by simp [edge_axis, ha])
    · exact find_local_edge _ _ 5 (i3_eq_of_components _ _ (by simp [I3.add, I3.sub, edge_low_offset]) (by simp [I3.add, I3.sub, edge_low_offset]) (by simp [I3.add, I3.sub, edge_low_offset])) (by simp [edge_axis, ha])
    · exact find_local_edge _ _ 1 (i3_eq_of_components _ _ (by simp [I3.add, I3.sub, edge_low_offset]) (by simp [I3.add, I3.sub, edge_low_offset]) (by simp [I3.add, I3.sub, edge_low_offset])) (by simp [edge_axis, ha])
    · exact find_local_edge _ _ 7 (i3_eq_of_components _ _ (by simp [I3.add, I3.sub, edge_low_offset]) (by simp [I3.add, I3.sub, edge_low_offset]) (by simp [I3.add, I3.sub, edge_low_offset])) (by simp [edge_axis, ha])
    · exact find_local_edge _ _ 3 (i3_eq_of_components _ _ (by simp [I3.add, I3.sub, edge_low_offset]) (by simp [I3.add, I3.sub, edge_low_offset]) (by simp [I3.add, I3.sub, edge_low_offset])) (by simp [edge_axis, ha])
    · exact find_local_edge _ _ 10 (i3_eq_of_components _ _ (by simp [I3.add, I3.sub, edge_low_offset]) (by simp [I3.add, I3.sub, edge_low_offset]) (by simp [I3.add, I3.sub, edge_low_offset])) (by simp [edge_axis, ha])
    · exact find_local_edge _ _ 9 (i3_eq_of_components _ _ (by simp [I3.add, I3.sub, edge_low_offset]) (by simp [I3.add, I3.sub, edge_low_offset]) (by simp [I3.add, I3.sub, edge_low_offset])) (by simp [edge_axis, ha])
    · exact find_local_edge _ _ 11 (i3_eq_of_components _ _ (by simp [I3.add, I3.sub, edge_low_offset]) (by simp [I3.add, I3.sub, edge_low_offset]) (by simp [I3.add, I3.sub, edge_low_offset])) (by simp [edge_axis, ha])
    · exact find_local_edge _ _ 8 (i3_eq_of_components _ _ (by simp [I3.add, I3.sub, edge_low_offset]) (by simp [I3.add, I3.sub, edge_low_offset]) (by simp [I3.add, I3.sub, edge_low_offset])) (by simp [edge_axis, ha])
  · -- local corner slot for the endpoint q
    cases ha : e.axis <;> rw [ha] at hcases <;>
      simp only [Axis.orthogonal_axes, Axis.unit] at hcases <;>
      rw [ha] at hq <;> simp only [Axis.unit] at hq <;>
      rcases hcases with h | h | h | h <;> subst h <;>
      rcases hq with h' | h' <;> subst h'
    · exact find_local_point _ _ 7 (i3_eq_of_components _ _ (by simp [I3.add, I3.sub, corner_offset]) (by simp [I3.add, I3.sub, corner_offset]) (by simp [I3.add, I3.sub, corner_offset]))
    · exact find_local_point _ _ 6 (i3_eq_of_components _ _ (by simp [I3.add, I3.sub, corner_offset]) (by simp [I3.add, I3.sub, corner_offset]) (by simp [I3.add, I3.sub, corner_offset]))
    · exact find_local_point _ _ 3 (i3_eq_of_components _ _ (by simp [I3.add, I3.sub, corner_offset]) (by simp [I3.add, I3.sub, corner_offset]) (by simp [I3.add, I3.sub, corner_offset]))
    · exact find_local_point _ _ 2 (i3_eq_of_components _ _ (by simp [I3.add, I3.sub, corner_offset]) (by simp [I3.add, I3.sub, corner_offset]) (by simp [I3.add, I3.sub, corner_offset]))
    · exact find_local_point _ _ 4 (i3_eq_of_components _ _ (by simp [I3.add, I3.sub, corner_offset]) (by simp [I3.add, I3.sub, corner_offset]) (by simp [I3.add, I3.sub, corner_offset]))
    · exact find_local_point _ _ 5 (i3_eq_of_components _ _ (by simp [I3.add, I3.sub, corner_offset]) (by simp [I3.add, I3.sub, corner_offset]) (by simp [I3.add, I3.sub, corner_offset]))
    · exact find_local_point _ _ 0 (i3_eq_of_components _ _ (by simp [I3.add, I3.sub, corner_offset]) (by simp [I3.add, I3.sub, corner_offset]) (by simp [I3.add, I3.sub, corner_offset]))
    · exact find_local_point _ _ 1 (i3_eq_of_components _ _ (by simp [I3.add, I3.sub, corner_offset]) (by simp [I3.add, I3.sub, corner_offset]) (by simp [I3.add, I3.sub, corner_offset]))
    · exact find_local_point _ _ 5 (i3_eq_of_components _ _ (by simp [I3.add, I3.sub, corner_offset]) (by simp [I3.add, I3.sub, corner_offset]) (by simp [I3.add, I3.sub, corner_offset]))
    · exact find_local_point _ _ 6 (i3_eq_of_components _ _ (by simp [I3.add, I3.sub, corner_offset]) (by simp [I3.add, I3.sub, corner_offset]) (by simp [I3.add, I3.sub, corner_offset]))
    · exact find_local_point _ _ 1 (i3_eq_of_components _ _ (by simp [I3.add, I3.sub, corner_offset]) (by simp [I3.add, I3.sub, corner_offset]) (by simp [I3.add, I3.sub, corner_offset]))
    · exact find_local_point _ _ 2 (i3_eq_of_components _ _ (by simp [I3.add, I3.sub, corner_offset]) (by simp [I3.add, I3.sub, corner_offset]) (by simp [I3.add, I3.sub, corner_offset]))
    · exact find_local_point _ _ 4 (i3_eq_of_components _ _ (by simp [I3.add, I3.sub, corner_offset]) (by simp [I3.add, I3.sub, corner_offset]) (by simp [I3.add, I3.sub, corner_offset]))
    · exact find_local_point _ _ 7 (i3_eq_of_components _ _ (by simp [I3.add, I3.sub, corner_offset]) (by simp [I3.add, I3.sub, corner_offset]) (by simp [I3.add, I3.sub, corner_offset]))
    · exact find_local_point _ _ 0 (i3_eq_of_components _ _ (by simp [I3.add, I3.sub, corner_offset]) (by simp [I3.add, I3.sub, corner_offset]) (by simp [I3.add, I3.sub, corner_offset]))
    · exact find_local_point _ _ 3 (i3_eq_of_components _ _ (by simp [I3.add, I3.sub, corner_offset]) (by simp [I3.add, I3.sub, corner_offset]) (by simp [I3.add, I3.sub, corner_offset]))
    · exact find_local_point _ _ 2 (i3_eq_of_components _ _ (by simp [I3.add, I3.sub, corner_offset]) (by simp [I3.add, I3.sub, corner_offset]) (by simp [I3.add, I3.sub, corner_offset]))
    · exact find_local_point _ _ 6 (i3_eq_of_components _ _ (by simp [I3.add, I3.sub, corner_offset]) (by simp [I3.add, I3.sub, corner_offset]) (by simp [I3.add, I3.sub, corner_offset]))
    · exact find_local_point _ _ 1 (i3_eq_of_components _ _ (by simp [I3.add, I3.sub, corner_offset]) (by simp [I3.add, I3.sub, corner_offset]) (by simp [I3.add, I3.sub, corner_offset]))
    · exact find_local_point _ _ 5 (i3_eq_of_components _ _ (by simp [I3.add, I3.sub, corner_offset]) (by simp [I3.add, I3.sub, corner_offset]) (by simp [I3.add, I3.sub, corner_offset]))
    · exact find_local_point _ _ 3 (i3_eq_of_components _ _ (by simp [I3.add, I3.sub, corner_offset]) (by simp [I3.add, I3.sub, corner_offset]) (by simp [I3.add, I3.sub, corner_offset]))
    · exact find_local_point _ _ 7 (i3_eq_of_components _ _ (by simp [I3.add, I3.sub, corner_offset]) (by simp [I3.add, I3.sub, corner_offset]) (by simp [I3.add, I3.sub, corner_offset]))
    · exact find_local_point _ _ 0 (i3_eq_of_components _ _ (by simp [I3.add, I3.sub, corner_offset]) (by simp [I3.add, I3.sub, corner_offset]) (by simp [I3.add, I3.sub, corner_offset]))
    · exact find_local_point _ _ 4 (i3_eq_of_components _ _ (by simp [I3.add, I3.sub, corner_offset]) (by simp [I3.add, I3.sub, corner_offset]) (by simp [I3.add, I3.sub, corner_offset]))

theorem cells_adjacent_flatten_nodup (g : UniformGrid) (e : EdgeIndex) :
    ((cells_adjacent_to_edge g e).map (fun c => g.flatten_cell_index c)).Nodup := by
  have hmem : ∀ c ∈ cells_adjacent_to_edge g e, g.cell_in_grid c = true :=
    fun c hc => (List.mem_filter.mp hc).2
  have hnd : (cells_adjacent_to_edge g e).Nodup := by
    apply List.Nodup.filter
    cases e with
    | mk o a =>
      cases o with
      | mk ox oy oz =>
        cases a <;>
          simp [Axis.orthogonal_axes, Axis.unit, I3.sub, List.nodup_cons, List.mem_cons,
            I3.mk.injEq]
  exact List.Nodup.map_on
    (fun x hx y hy hxy => flatten_cell_injective g x y (hmem x hx) (hmem y hy) hxy) hnd

/-- All cells adjacent to an edge e agree on a common recorded vertex index at
their local slot for e. -/
def EdgeSlotsUniform (g : UniformGrid) (m : List (ℤ × CellData)) (e : EdgeIndex) : Prop :=
  ∃ vi, ∀ c ∈ cells_adjacent_to_edge g e, ∃ d k,
    mlookup m (g.flatten_cell_index c) = some d ∧ local_edge_index_of c e = some k ∧
    d.iso_surface_vertices k = some vi

/-- The step function of the record_edge_crossing fold. -/
def record_step (g : UniformGrid) (e : EdgeIndex) (q : I3) (vi : ℕ)
    (m : List (ℤ × CellData)) (c : I3) : List (ℤ × CellData) :=
  mupdate m (g.flatten_cell_index c)
    (fun d =>
      match local_edge_index_of c e, local_point_index_of c q with
      | some le, some lp =>
        { iso_surface_vertices := Function.update d.iso_surface_vertices le (some vi)
          corner_above_threshold :=
            Function.update d.corner_above_threshold lp RelativeToThreshold.Above }
      | _, _ => d)
    CellData.empty

theorem record_edge_crossing_eq_fold (g : UniformGrid) (e : EdgeIndex) (q : I3) (vi : ℕ)
    (m : List (ℤ × CellData)) :
    record_edge_crossing g e q vi m =
      (cells_adjacent_to_edge g e).foldl (record_step g e q vi) m := rfl

theorem record_fold_preserve_other (g : UniformGrid) (e : EdgeIndex) (q : I3) (vi : ℕ)
    (cs : List I3) (m : List (ℤ × CellData)) (key : ℤ)
    (h : ∀ c ∈ cs, g.flatten_cell_index c ≠ key) :
    mlookup (cs.foldl (record_step g e q vi) m) key = mlookup m key := by
  induction cs generalizing m with
  | nil => rfl
  | cons c0 cs ih =>
    simp only [List.foldl_cons]
    rw [ih _ (fun c hc => h c (List.mem_cons_of_mem _ hc))]
    exact mlookup_mupdate_ne _ _ _ _ _ (fun hc => h c0 (by simp) hc.symm)

/-- After record_edge_crossing for an edge e with endpoint q and vertex index
vi, every cell adjacent to e has the slot for e set to vi. -/
theorem record_edge_slots_set (g : UniformGrid) (e : EdgeIndex) (q : I3) (vi : ℕ)
    (m : List (ℤ × CellData))
    (hq : q = e.origin ∨ q = e.origin.add e.axis.unit) :
    ∀ c ∈ cells_adjacent_to_edge g e, ∃ d k,
      mlookup (record_edge_crossing g e q vi m) (g.flatten_cell_index c) = some d ∧
      local_edge_index_of c e = some k ∧ d.iso_surface_vertices k = some vi := by
  rw [record_edge_crossing_eq_fold]
  have hslots : ∀ c ∈ cells_adjacent_to_edge g e,
      g.cell_in_grid c = true ∧ (∃ k, local_edge_index_of c e = some k) ∧
        (∃ k', local_point_index_of c q = some k') :=
    fun c hc => adjacent_cell_slots g e q c hq hc
  have hnd := cells_adjacent_flatten_nodup g e
  have hsub : ∀ c ∈ cells_adjacent_to_edge g e, c ∈ cells_adjacent_to_edge g e := fun c hc => hc
  revert hslots hnd hsub
  generalize cells_adjacent_to_edge g e = cs
  intro hslots hnd hsub
  clear hsub
  induction cs generalizing m with
  | nil => intro c hc; simp at hc
  | cons c0 cs ih =>
    intro c hc
    simp only [List.map_cons, List.nodup_cons] at hnd
    rcases List.mem_cons.mp hc with hc0 | hcs
    · subst hc0
      obtain ⟨_, ⟨k0, hk0⟩, ⟨k0', hk0'⟩⟩ := hslots c (by simp)
      simp only [List.foldl_cons]
      have hlook : mlookup (cs.foldl (record_step g e q vi) (record_step g e q vi m c))
          (g.flatten_cell_index c) = some
            { iso_surface_vertices :=
                Function.update
                  ((mlookup m (g.flatten_cell_index c)).getD CellData.empty).iso_surface_vertices
                  k0 (some vi)
              corner_above_threshold :=
                Function.update
                  ((mlookup m (g.flatten_cell_index c)).getD CellData.empty).corner_above_threshold
                  k0' RelativeToThreshold.Above } := by
        rw [record_fold_preserve_other g e q vi cs _ _ ?_]
        · unfold record_step
          rw [mlookup_mupdate_self]
          simp [hk0, hk0']
        · intro c' hc' hceq
          exact hnd.1 (hceq ▸ List.mem_map_of_mem (fun c => g.flatten_cell_index c) hc')
      exact ⟨_, k0, hlook, hk0, by simp [Function.update_same]⟩
    · simp only [List.foldl_cons]
      exact ih _ (fun c' hc' => hslots c' (List.mem_cons_of_mem _ hc')) hnd.2 c hcs

/-- Recording a crossing of a different edge never disturbs an existing
recorded vertex slot: the touched local slot of any shared cell is a different
slot by injectivity of the local edge numbering. -/
theorem record_preserves_slot (g : UniformGrid) (e2 : EdgeIndex) (q2 : I3) (vi2 : ℕ)
    (m : List (ℤ × CellData)) (c : I3) (hc : g.cell_in_grid c = true)
    (le : Fin 12) (w : ℕ) (d : CellData)
    (hd : mlookup m (g.flatten_cell_index c) = some d)
    (hslot : d.iso_surface_vertices le = some w)
    (hne : local_edge_index_of c e2 ≠ some le) :
    ∃ d2, mlookup (record_edge_crossing g e2 q2 vi2 m) (g.flatten_cell_index c) = some d2 ∧
      d2.iso_surface_vertices le = some w := by
  rw [record_edge_crossing_eq_fold]
  have hgrid : ∀ c' ∈ cells_adjacent_to_edge g e2, g.cell_in_grid c' = true :=
    fun c' hc' => (List.mem_filter.mp hc').2
  revert hgrid
  generalize cells_adjacent_to_edge g e2 = cs
  intro hgrid
  induction cs generalizing m d with
  | nil => exact ⟨d, hd, hslot⟩
  | cons c0 cs ih =>
    simp only [List.foldl_cons]
    by_cases hkey : g.flatten_cell_index c0 = g.flatten_cell_index c
    · have hc0c : c0 = c :=
        flatten_cell_injective g c0 c (hgrid c0 (by simp)) hc hkey
      subst hc0c
      -- the updated entry still carries the slot value
      refine ih _ ?_ ?_ ?_ (fun c' hc' => hgrid c' (List.mem_cons_of_mem _ hc'))
      case _ =>
        exact (match local_edge_index_of c0 e2, local_point_index_of c0 q2 with
          | some le2, some lp2 =>
            { iso_surface_vertices := Function.update d.iso_surface_vertices le2 (some vi2)
              corner_above_threshold :=
                Function.update d.corner_above_threshold lp2 RelativeToThreshold.Above }
          | _, _ => d)
      · unfold record_step
        rw [mlookup_mupdate_self, hd]
        simp only [Option.getD_some]
      · cases hle2 : local_edge_index_of c0 e2 with
        | none => simp [hle2, hslot]
        | some le2 =>
          cases hlp2 : local_point_index_of c0 q2 with
          | none => simp [hle2, hlp2, hslot]
          | some lp2 =>
            simp only [hle2, hlp2]
            have hle2ne : le2 ≠ le := fun hc2 => hne (hc2 ▸ hle2)
            rw [show (Function.update d.iso_surface_vertices le2 (some vi2)) le =
              d.iso_surface_vertices le from Function.update_noteq (Ne.symm hle2ne) _ _]
            exact hslot
    · refine ih _ d ?_ hslot (fun c' hc' => hgrid c' (List.mem_cons_of_mem _ hc'))
      unfold record_step
      rw [mlookup_mupdate_ne _ _ _ _ _ (fun hcc => hkey hcc.symm)]
      exact hd

theorem i3_add_sub_cancel (a u : I3) : (a.add u).sub u = a := by
  cases a; cases u; simp [I3.add, I3.sub]

theorem get_point_neighbor_eq (g : UniformGrid) (p : I3) (dir : DirectedAxis) (q : I3)
    (h : g.get_point_neighbor p dir = some q) :
    q = dir.step p ∧ g.point_in_grid q = true := by
  unfold UniformGrid.get_point_neighbor at h
  cases hin : g.point_in_grid (dir.step p) with
  | true =>
    rw [if_pos hin] at h
    have := Option.some_injective _ h
    exact ⟨this.symm, this ▸ hin⟩
  | false => rw [if_neg (by simp [hin])] at h; simp at h

/-- Recording a crossing of edge e2 itself establishes slot agreement for e2. -/
theorem record_establishes_uniform (g : UniformGrid) (e2 : EdgeIndex) (q : I3) (vi : ℕ)
    (m : List (ℤ × CellData)) (hq : q = e2.origin ∨ q = e2.origin.add e2.axis.unit) :
    EdgeSlotsUniform g (record_edge_crossing g e2 q vi m) e2 :=
  ⟨vi, record_edge_slots_set g e2 q vi m hq⟩

/-- Recording a crossing of a different edge preserves slot agreement. -/
theorem record_preserves_uniform (g : UniformGrid) (e2 : EdgeIndex) (q2 : I3) (vi2 : ℕ)
    (m : List (ℤ × CellData)) (e : EdgeIndex) (hee : e2 ≠ e)
    (h : EdgeSlotsUniform g m e) :
    EdgeSlotsUniform g (record_edge_crossing g e2 q2 vi2 m) e := by
  obtain ⟨vi, hvi⟩ := h
  refine ⟨vi, fun c hc => ?_⟩
  obtain ⟨d, k, hd, hk, hslot⟩ := hvi c hc
  have hcin : g.cell_in_grid c = true := (List.mem_filter.mp hc).2
  have hne : local_edge_index_of c e2 ≠ some k := by
    intro hcontra
    exact hee (local_edge_index_injective c e2 e k hcontra hk)
  obtain ⟨d2, hd2, hslot2⟩ :=
    record_preserves_slot g e2 q2 vi2 m c hcin k vi d hd hslot hne
  exact ⟨d2, k, hd2, hk, hslot2⟩

/-- Every Pass A neighbour step preserves the shared-slot agreement of any
edge: steps on other edges write different slots, a step on the same edge
re-records all adjacent cells with one common fresh vertex index. -/
theorem step_neighbor_preserves_uniform (g : UniformGrid) (dm : DensityMap) (τ : ℚ)
    (p : I3) (vp : ℚ) (st : MCState) (dir : DirectedAxis) (e : EdgeIndex)
    (h : EdgeSlotsUniform g st.cell_data e) :
    EdgeSlotsUniform g (step_neighbor g dm τ p vp st dir).cell_data e := by
  obtain ⟨ax, di⟩ := dir
  cases hq : g.get_point_neighbor p ⟨ax, di⟩ with
  | none => unfold step_neighbor; rw [hq]; exact h
  | some q =>
    obtain ⟨hqstep, _⟩ := get_point_neighbor_eq g p _ q hq
    unfold step_neighbor
    rw [hq]
    simp only
    cases hget : dm.get (g.flatten_point_index q) with
    | none => exact h
    | some vq =>
      simp only
      by_cases hvq : vq > τ
      · simp only [if_pos hvq]
        cases di with
        | Positive =>
          show EdgeSlotsUniform g
            (record_edge_crossing g ⟨p, ax⟩ q st.vertices.length st.cell_data) e
          by_cases hee : (⟨p, ax⟩ : EdgeIndex) = e
          · rw [← hee]
            refine record_establishes_uniform g ⟨p, ax⟩ q st.vertices.length st.cell_data ?_
            exact Or.inr hqstep
          · exact record_preserves_uniform g ⟨p, ax⟩ q st.vertices.length st.cell_data e hee h
        | Negative =>
          show EdgeSlotsUniform g
            (record_edge_crossing g ⟨q, ax⟩ q st.vertices.length st.cell_data) e
          by_cases hee : (⟨q, ax⟩ : EdgeIndex) = e
          · rw [← hee]
            exact record_establishes_uniform g ⟨q, ax⟩ q st.vertices.length st.cell_data
              (Or.inl rfl)
          · exact record_preserves_uniform g ⟨q, ax⟩ q st.vertices.length st.cell_data e hee h
      · simp only [if_neg hvq]
        exact h

theorem pass_a_step_preserves_uniform (g : UniformGrid) (dm : DensityMap) (τ : ℚ)
    (st : MCState) (entry : ℤ × ℚ) (e : EdgeIndex)
    (h : EdgeSlotsUniform g st.cell_data e) :
    EdgeSlotsUniform g (pass_a_step g dm τ st entry).cell_data e := by
  unfold pass_a_step
  by_cases he : entry.2 > τ
  · simp only [if_pos he]; exact h
  · simp only [if_neg he]
    cases g.try_unflatten_point_index entry.1 with
    | none => exact h
    | some p =>
      simp only
      generalize DirectedAxis.all = dirs
      induction dirs generalizing st with
      | nil => exact h
      | cons d ds ih =>
        simp only [List.foldl_cons]
        exact ih _ (step_neighbor_preserves_uniform g dm τ p entry.2 st d e h)

theorem fold_pass_a_preserves_uniform (g : UniformGrid) (dm : DensityMap) (τ : ℚ)
    (entries : List (ℤ × ℚ)) (st : MCState) (e : EdgeIndex)
    (h : EdgeSlotsUniform g st.cell_data e) :
    EdgeSlotsUniform g (entries.foldl (pass_a_step g dm τ) st).cell_data e := by
  induction entries generalizing st with
  | nil => exact h
  | cons entry rest ih =>
    simp only [List.foldl_cons]
    exact ih _ (pass_a_step_preserves_uniform g dm τ st entry e h)

theorem foldl_preserves {α σ : Type} (P : σ → Prop) (f : σ → α → σ) (l : List α)
    (hpres : ∀ s b, P s → P (f s b)) : ∀ s, P s → P (l.foldl f s) := by
  induction l with
  | nil => exact fun s h => h
  | cons hd tl ih =>
    intro s h
    simp only [List.foldl_cons]
    exact ih _ (hpres s hd h)

theorem foldl_establishes_of_mem {α σ : Type} (P : σ → Prop) (f : σ → α → σ)
    (l : List α) (a : α) (ha : a ∈ l) (hest : ∀ s, P (f s a))
    (hpres : ∀ s b, P s → P (f s b)) (s0 : σ) : P (l.foldl f s0) := by
  induction l generalizing s0 with
  | nil => simp at ha
  | cons hd tl ih =>
    simp only [List.foldl_cons]
    rcases List.mem_cons.mp ha with h1 | h2
    · subst h1
      exact foldl_preserves P f tl hpres _ (hest s0)
    · exact ih h2 _

theorem edgeIndex_eta (e : EdgeIndex) : (⟨e.origin, e.axis⟩ : EdgeIndex) = e := by
  cases e; rfl

/-- Processing the sub-threshold endpoint of a crossing edge in Pass A
establishes the shared-slot agreement for that edge. -/
theorem pass_a_step_establishes (g : UniformGrid) (dm : DensityMap) (τ : ℚ) (st : MCState)
    (e : EdgeIndex) (p_low q_high : I3) (v_low v_high : ℚ)
    (hcase : (p_low = e.origin ∧ q_high = e.origin.add e.axis.unit) ∨
             (p_low = e.origin.add e.axis.unit ∧ q_high = e.origin))
    (hlow : ¬ v_low > τ) (hhigh : v_high > τ)
    (hpin : g.point_in_grid p_low = true) (hqin : g.point_in_grid q_high = true)
    (hget : dm.get (g.flatten_point_index q_high) = some v_high) :
    EdgeSlotsUniform g
      (pass_a_step g dm τ st (g.flatten_point_index p_low, v_low)).cell_data e := by
  unfold pass_a_step
  simp only [if_neg hlow]
  rw [unflatten_flatten_point g p_low hpin]
  simp only
  rcases hcase with ⟨hp, hq⟩ | ⟨hp, hq⟩
  · -- p_low is the edge origin: the crossing is found along (axis, Positive)
    have hstep : (⟨e.axis, Direction.Positive⟩ : DirectedAxis).step p_low = q_high := by
      simp only [DirectedAxis.step]
      rw [hp, ← hq]
    refine foldl_establishes_of_mem _ _ _ ⟨e.axis, Direction.Positive⟩
      (by cases e.axis <;> simp [DirectedAxis.all]) ?_
      (fun s b hP => step_neighbor_preserves_uniform g dm τ p_low v_low s b e hP) st
    intro s
    unfold step_neighbor
    rw [show g.get_point_neighbor p_low ⟨e.axis, Direction.Positive⟩ = some q_high by
      unfold UniformGrid.get_point_neighbor
      rw [hstep, if_pos hqin]]
    simp only
    rw [hget]
    simp only [if_pos hhigh]
    show EdgeSlotsUniform g
      (record_edge_crossing g ⟨p_low, e.axis⟩ q_high s.vertices.length s.cell_data) e
    rw [show (⟨p_low, e.axis⟩ : EdgeIndex) = e by rw [hp]]
    exact record_establishes_uniform g e q_high s.vertices.length s.cell_data (Or.inr hq)
  · -- p_low is the far endpoint: the crossing is found along (axis, Negative)
    have hstep : (⟨e.axis, Direction.Negative⟩ : DirectedAxis).step p_low = q_high := by
      simp only [DirectedAxis.step]
      rw [hp, hq, i3_add_sub_cancel]
    refine foldl_establishes_of_mem _ _ _ ⟨e.axis, Direction.Negative⟩
      (by cases e.axis <;> simp [DirectedAxis.all]) ?_
      (fun s b hP => step_neighbor_preserves_uniform g dm τ p_low v_low s b e hP) st
    intro s
    unfold step_neighbor
    rw [show g.get_point_neighbor p_low ⟨e.axis, Direction.Negative⟩ = some q_high by
      unfold UniformGrid.get_point_neighbor
      rw [hstep, if_pos hqin]]
    simp only
    rw [hget]
    simp only [if_pos hhigh]
    show EdgeSlotsUniform g
      (record_edge_crossing g ⟨q_high, e.axis⟩ q_high s.vertices.length s.cell_data) e
    rw [show (⟨q_high, e.axis⟩ : EdgeIndex) = e by rw [hq]]
    exact record_establishes_uniform g e q_high s.vertices.length s.cell_data (Or.inl hq)

theorem mlookup_postprocessing (g : UniformGrid) (dm : DensityMap) (τ : ℚ)
    (cells : List (ℤ × CellData)) (key : ℤ) :
    mlookup (relative_to_threshold_postprocessing g dm τ cells) key =
      (mlookup cells key).map (pass_b_cell g dm τ key) := by
  induction cells with
  | nil => rfl
  | cons hd tl ih =>
    cases hd with
    | mk k0 d0 =>
      unfold relative_to_threshold_postprocessing at ih ⊢
      by_cases hk : key = k0
      · subst hk; simp [mlookup]
      · simp [mlookup, hk, ih]

/-- C1: for every pair of cells adjacent to a common grid edge whose endpoint
values cross the threshold, the marching-cubes input produced by
interpolate_points_to_cell_data records one common vertex index in both cells
at the local edge corresponding to the shared edge. -/
theorem shared_edge_vertex_indices_agree (g : UniformGrid) (dm : DensityMap) (τ : ℚ)
    (vertices : List R3) (e : EdgeIndex)
    (hor : g.point_in_grid e.origin = true)
    (hep : g.point_in_grid (e.origin.add e.axis.unit) = true)
    (v1 v2 : ℚ)
    (hv1 : dm.get (g.flatten_point_index e.origin) = some v1)
    (hv2 : dm.get (g.flatten_point_index (e.origin.add e.axis.unit)) = some v2)
    (hcross : (v1 ≤ τ ∧ τ < v2) ∨ (v2 ≤ τ ∧ τ < v1))
    (c1 c2 : I3) (hc1 : c1 ∈ cells_adjacent_to_edge g e)
    (hc2 : c2 ∈ cells_adjacent_to_edge g e) :
    ∃ vi d1 d2 k1 k2,
      mlookup (interpolate_points_to_cell_data g dm τ vertices).cell_data
        (g.flatten_cell_index c1) = some d1 ∧
      mlookup (interpolate_points_to_cell_data g dm τ vertices).cell_data
        (g.flatten_cell_index c2) = some d2 ∧
      local_edge_index_of c1 e = some k1 ∧ local_edge_index_of c2 e = some k2 ∧
      d1.iso_surface_vertices k1 = some vi ∧ d2.iso_surface_vertices k2 = some vi := by
  -- the sub-threshold endpoint of the crossing edge
  have hUnif : EdgeSlotsUniform g
      (generate_iso_surface_vertices g dm τ ⟨vertices, []⟩).cell_data e := by
    rcases hcross with ⟨h1, h2⟩ | ⟨h1, h2⟩
    · have hmem : (g.flatten_point_index e.origin, v1) ∈ dm := mlookup_mem dm _ v1 hv1
      obtain ⟨pre, post, hsplit⟩ := List.append_of_mem hmem
      unfold generate_iso_surface_vertices
      rw [show List.foldl (pass_a_step g dm τ) ⟨vertices, []⟩ dm =
          List.foldl (pass_a_step g dm τ) ⟨vertices, []⟩
            (pre ++ (g.flatten_point_index e.origin, v1) :: post) by rw [← hsplit]]
      rw [List.foldl_append, List.foldl_cons]
      refine fold_pass_a_preserves_uniform g dm τ post _ e ?_
      exact pass_a_step_establishes g dm τ _ e e.origin (e.origin.add e.axis.unit) v1 v2
        (Or.inl ⟨rfl, rfl⟩) (not_lt.mpr h1) h2 hor hep hv2
    · have hmem : (g.flatten_point_index (e.origin.add e.axis.unit), v2) ∈ dm :=
        mlookup_mem dm _ v2 hv2
      obtain ⟨pre, post, hsplit⟩ := List.append_of_mem hmem
      unfold generate_iso_surface_vertices
      rw [show List.foldl (pass_a_step g dm τ) ⟨vertices, []⟩ dm =
          List.foldl (pass_a_step g dm τ) ⟨vertices, []⟩
            (pre ++ (g.flatten_point_index (e.origin.add e.axis.unit), v2) :: post) by
          rw [← hsplit]]
      rw [List.foldl_append, List.foldl_cons]
      refine fold_pass_a_preserves_uniform g dm τ post _ e ?_
      exact pass_a_step_establishes g dm τ _ e (e.origin.add e.axis.unit) e.origin v2 v1
        (Or.inr ⟨rfl, rfl⟩) (not_lt.mpr h1) h2 hep hor hv1
  obtain ⟨vi, hvi⟩ := hUnif
  obtain ⟨d1, k1, hd1, hk1, hs1⟩ := hvi c1 hc1
  obtain ⟨d2, k2, hd2, hk2, hs2⟩ := hvi c2 hc2
  refine ⟨vi, pass_b_cell g dm τ (g.flatten_cell_index c1) d1,
    pass_b_cell g dm τ (g.flatten_cell_index c2) d2, k1, k2, ?_, ?_, hk1, hk2, ?_, ?_⟩
  · unfold interpolate_points_to_cell_data
    simp only
    rw [mlookup_postprocessing, hd1]
    rfl
  · unfold interpolate_points_to_cell_data
    simp only
    rw [mlookup_postprocessing, hd2]
    rfl
  · rw [pass_b_cell_iso_eq]; exact hs1
  · rw [pass_b_cell_iso_eq]; exact hs2

/-- A 2×1×1-cell grid used to witness the shared-edge agreement. -/
def two_cell_grid : UniformGrid := ⟨⟨0, 0, 0⟩, ⟨2, 1, 1⟩, 1⟩

/-- A density map with a single crossing edge on the face shared by the two
cells of two_cell_grid: point (1,0,0) ↦ 0, point (1,1,0) ↦ 2. -/
def two_cell_density_map : DensityMap := [(1, 0), (4, 2)]

/-- Witness for C1: with threshold 1 the edge from (1,0,0) to (1,1,0) crosses
the iso-surface; its two adjacent cells (0,0,0) and (1,0,0) record one common
vertex index on their local slots for that edge. -/
theorem shared_edge_vertex_indices_agree_witness :
    ∃ vi d1 d2 k1 k2,
      mlookup (interpolate_points_to_cell_data two_cell_grid two_cell_density_map 1 []).cell_data
        (two_cell_grid.flatten_cell_index ⟨0, 0, 0⟩) = some d1 ∧
      mlookup (interpolate_points_to_cell_data two_cell_grid two_cell_density_map 1 []).cell_data
        (two_cell_grid.flatten_cell_index ⟨1, 0, 0⟩) = some d2 ∧
      local_edge_index_of ⟨0, 0, 0⟩ ⟨⟨1, 0, 0⟩, Axis.Y⟩ = some k1 ∧
      local_edge_index_of ⟨1, 0, 0⟩ ⟨⟨1, 0, 0⟩, Axis.Y⟩ = some k2 ∧
      d1.iso_surface_vertices k1 = some vi ∧ d2.iso_surface_vertices k2 = some vi :=
  shared_edge_vertex_indices_agree two_cell_grid two_cell_density_map 1 []
    ⟨⟨1, 0, 0⟩, Axis.Y⟩ (by decide) (by decide) 0 2 (by decide) (by decide)
    (Or.inl (by norm_num)) ⟨0, 0, 0⟩ ⟨1, 0, 0⟩ (by decide) (by decide)

/-! ## Triangulation with criteria (marching_cubes.rs: triangulate_with_criterion,
TriangulationSkipBoundaryCells, TriangulationStitchingInterior,
DefaultTriangleGenerator) -/

/-- Modelled from the spec: a subdomain grid pairs the global grid with a
child grid and an offset locating the child inside the parent (§4.7). -/
structure SubdomainGrid : Type where
  global_grid : UniformGrid
  subdomain_grid : UniformGrid
  subdomain_offset : I3
  deriving DecidableEq, Repr

namespace GridBoundaryFaceFlags

/-- Modelled from the spec: the 6-bit mask classifying a cell by which of the
six outer faces of the grid it lies on, as the list of those faces. -/
def classify_cell (g : UniformGrid) (c : I3) : List DirectedAxis :=
  (if c.x = 0 then [⟨Axis.X, Direction.Negative⟩] else []) ++
  (if c.x = g.n_cells_per_dim.x - 1 then [⟨Axis.X, Direction.Positive⟩] else []) ++
  (if c.y = 0 then [⟨Axis.Y, Direction.Negative⟩] else []) ++
  (if c.y = g.n_cells_per_dim.y - 1 then [⟨Axis.Y, Direction.Positive⟩] else []) ++
  (if c.z = 0 then [⟨Axis.Z, Direction.Negative⟩] else []) ++
  (if c.z = g.n_cells_per_dim.z - 1 then [⟨Axis.Z, Direction.Positive⟩] else [])

/-- Modelled from the spec: the same classification for a grid point. -/
def classify_point (g : UniformGrid) (p : I3) : List DirectedAxis :=
  (if p.x = 0 then [⟨Axis.X, Direction.Negative⟩] else []) ++
  (if p.x = g.points_per_dim.x - 1 then [⟨Axis.X, Direction.Positive⟩] else []) ++
  (if p.y = 0 then [⟨Axis.Y, Direction.Negative⟩] else []) ++
  (if p.y = g.points_per_dim.y - 1 then [⟨Axis.Y, Direction.Positive⟩] else []) ++
  (if p.z = 0 then [⟨Axis.Z, Direction.Negative⟩] else []) ++
  (if p.z = g.points_per_dim.z - 1 then [⟨Axis.Z, Direction.Positive⟩] else [])

end GridBoundaryFaceFlags

/-- The marching-cubes triangulation lookup table, kept abstract.  Modelled
from the spec §4.1: a pure function from the 8 corner signs to up to 5
triangles given as triples of local edge indices in {0..11}
(marching_cubes_lut.rs is not among the provided source files; all statements
hold for every table). -/
def McTable : Type := (Fin 8 → Bool) → List (Fin 12 × Fin 12 × Fin 12)

/-- CellData::are_vertices_above: the corner sign mask; the source panics when
a flag is still Indeterminate, modelled by none. -/
def CellData.are_vertices_above (d : CellData) : Option (Fin 8 → Bool) :=
  if ∀ k, d.corner_above_threshold k ≠ RelativeToThreshold.Indeterminate then
    some (fun k =>
      match d.corner_above_threshold k with
      | RelativeToThreshold.Above => true
      | _ => false)
  else none

/-- DefaultTriangleGenerator::triangle_connectivity: resolve the three local
edges of a triangle to global vertex indices; the source panics on a missing
iso-surface vertex, modelled by none. -/
def default_triangle_generator (cell_data : CellData)
    (edge_indices : Fin 12 × Fin 12 × Fin 12) : Option (ℕ × ℕ × ℕ) :=
  match cell_data.iso_surface_vertices edge_indices.1,
      cell_data.iso_surface_vertices edge_indices.2.1,
      cell_data.iso_surface_vertices edge_indices.2.2 with
  | some a, some b, some c => some (a, b, c)
  | _, _, _ => none

/-- The triangles emitted for one cell: the table is queried on the corner
sign mask and each triangle is resolved through the generator (failures are
panics in the source, modelled by skipping). -/
def cell_triangles (table : McTable)
    (generator : CellData → Fin 12 × Fin 12 × Fin 12 → Option (ℕ × ℕ × ℕ))
    (d : CellData) : List (ℕ × ℕ × ℕ) :=
  match d.are_vertices_above with
  | none => []
  | some mask => (table mask).filterMap (generator d)

/-- TriangulationIdentityCriterion: accepts all cells. -/
def triangulation_identity_criterion (_ : SubdomainGrid) (_ : ℤ) : Bool := true

/-- TriangulationSkipBoundaryCells: accept exactly the cells of the subdomain
whose grid-boundary-face flags are empty.  The source panics when the flat
index is not a cell of the subdomain grid; modelled by rejecting it. -/
def triangulation_skip_boundary_cells (subdomain : SubdomainGrid)
    (flat_cell_index : ℤ) : Bool :=
  match subdomain.subdomain_grid.try_unflatten_cell_index flat_cell_index with
  | some cell_index =>
    (GridBoundaryFaceFlags.classify_cell subdomain.subdomain_grid cell_index).isEmpty
  | none => false

/-- TriangulationStitchingInterior: skip only boundary cells in directions
orthogonal to the stitching axis. -/
def triangulation_stitching_interior (stitching_axis : Axis)
    (subdomain : SubdomainGrid) (flat_cell_index : ℤ) : Bool :=
  match subdomain.subdomain_grid.try_unflatten_cell_index flat_cell_index with
  | some cell_index =>
    let grid := subdomain.subdomain_grid
    let a12 := stitching_axis.orthogonal_axes
    !(decide (cell_index.get a12.1 = 0 ∨
        cell_index.get a12.1 = grid.cells_per_dim.get a12.1 - 1 ∨
        cell_index.get a12.2 = 0 ∨
        cell_index.get a12.2 = grid.cells_per_dim.get a12.2 - 1))
  | none => false

/-- triangulate_with_criterion: for each cell of the input that passes the
criterion, query the triangulation table on the corner sign mask and append
the resolved triangles to the mesh. -/
def triangulate_with_criterion (subdomain : SubdomainGrid)
    (cell_data : List (ℤ × CellData)) (mesh : List (ℕ × ℕ × ℕ))
    (criterion : SubdomainGrid → ℤ → Bool)
    (generator : CellData → Fin 12 × Fin 12 × Fin 12 → Option (ℕ × ℕ × ℕ))
    (table : McTable) : List (ℕ × ℕ × ℕ) :=
  cell_data.foldl
    (fun tris e =>
      if criterion subdomain e.1 then tris ++ cell_triangles table generator e.2 else tris)
    mesh

theorem triangulate_with_criterion_characterisation (subdomain : SubdomainGrid)
    (cell_data : List (ℤ × CellData)) (mesh : List (ℕ × ℕ × ℕ))
    (criterion : SubdomainGrid → ℤ → Bool)
    (generator : CellData → Fin 12 × Fin 12 × Fin 12 → Option (ℕ × ℕ × ℕ))
    (table : McTable) :
    triangulate_with_criterion subdomain cell_data mesh criterion generator table =
      mesh ++ (cell_data.filter (fun e => criterion subdomain e.1)).flatMap
        (fun e => cell_triangles table generator e.2) := by
  induction cell_data generalizing mesh with
  | nil => simp [triangulate_with_criterion]
  | cons hd tl ih =>
    unfold triangulate_with_criterion at ih ⊢
    by_cases hc : criterion subdomain hd.1
    · simp [List.foldl_cons, if_pos hc, ih, List.filter_cons, hc, List.flatMap_cons,
        List.append_assoc]
    · simp [List.foldl_cons, if_neg hc, ih, List.filter_cons,
        show (criterion subdomain hd.1 = false) from Bool.not_eq_true _ |>.mp hc]

/-- C6: triangulation with the SkipBoundaryCells criterion appends exactly the
triangles of cells whose grid-boundary-face flags are empty; in particular no
triangle is emitted for any cell lying on an outer face of the subdomain. -/
theorem skip_boundary_cells_only_interior_triangles (subdomain : SubdomainGrid)
    (cell_data : List (ℤ × CellData)) (mesh : List (ℕ × ℕ × ℕ)) (table : McTable) :
    triangulate_with_criterion subdomain cell_data mesh
        triangulation_skip_boundary_cells default_triangle_generator table =
      mesh ++ (cell_data.filter (fun e =>
          match subdomain.subdomain_grid.try_unflatten_cell_index e.1 with
          | some cell_index =>
            (GridBoundaryFaceFlags.classify_cell subdomain.subdomain_grid cell_index).isEmpty
          | none => false)).flatMap
        (fun e => cell_triangles table default_triangle_generator e.2) :=
  triangulate_with_criterion_characterisation subdomain cell_data mesh
    triangulation_skip_boundary_cells default_triangle_generator table

/-! ## Boundary data and merging (marching_cubes.rs: BoundaryData,
merge_boundary_data) -/

/-- Modelled from the spec §4.7: re-express a flat point index of this
subdomain in another subdomain: unflatten in self, translate by the offset
difference, re-flatten in the target, absent if out of the target range. -/
def SubdomainGrid.map_flat_point_index_to (self other : SubdomainGrid) (i : ℤ) : Option ℤ :=
  match self.subdomain_grid.try_unflatten_point_index i with
  | none => none
  | some p =>
    let target_point := (p.add self.subdomain_offset).sub other.subdomain_offset
    if other.subdomain_grid.point_in_grid target_point then
      some (other.subdomain_grid.flatten_point_index target_point)
    else none

/-- Modelled from the spec §4.7: the same conversion for flat cell indices. -/
def SubdomainGrid.map_flat_cell_index_to (self other : SubdomainGrid) (i : ℤ) : Option ℤ :=
  match self.subdomain_grid.try_unflatten_cell_index i with
  | none => none
  | some c =>
    let target_cell := (c.add self.subdomain_offset).sub other.subdomain_offset
    if other.subdomain_grid.cell_in_grid target_cell then
      some (other.subdomain_grid.flatten_cell_index target_cell)
    else none

/-- Stitching data per boundary. -/
structure BoundaryData : Type where
  boundary_density_map : List (ℤ × ℚ)
  boundary_cell_data : List (ℤ × CellData)
  deriving DecidableEq

/-- Default (empty) boundary data. -/
def BoundaryData.empty : BoundaryData := ⟨[], []⟩

/-- Shift every recorded iso-surface vertex index of a CellData by a vertex
offset (the positive-side shift of merge_boundary_data and to_domain). -/
def CellData.offset_vertices (d : CellData) (vertex_offset : ℕ) : CellData :=
  { d with
    iso_surface_vertices := fun j =>
      (d.iso_surface_vertices j).map (fun v => v + vertex_offset) }

/-- The density-map half of merge_boundary_data: negative-side points are
remapped into the target subdomain and inserted; positive-side points are
remapped and averaged with an already-present value
((density + contribution) / (1 + 1)) or inserted. -/
def negative_density_step (target_subdomain negative_subdomain : SubdomainGrid)
    (m : List (ℤ × ℚ)) (e : ℤ × ℚ) : List (ℤ × ℚ) :=
  match negative_subdomain.map_flat_point_index_to target_subdomain e.1 with
  | some k => minsert m k e.2
  | none => m

def positive_density_step (target_subdomain positive_subdomain : SubdomainGrid)
    (m : List (ℤ × ℚ)) (e : ℤ × ℚ) : List (ℤ × ℚ) :=
  match positive_subdomain.map_flat_point_index_to target_subdomain e.1 with
  | some k => mAndModifyOrInsert m k (fun density => (density + e.2) / (1 + 1)) e.2
  | none => m

def merge_boundary_density_maps (target_subdomain negative_subdomain : SubdomainGrid)
    (negative_map : List (ℤ × ℚ)) (positive_subdomain : SubdomainGrid)
    (positive_map : List (ℤ × ℚ)) : List (ℤ × ℚ) :=
  let merged := negative_map.foldl (negative_density_step target_subdomain negative_subdomain) []
  positive_map.foldl (positive_density_step target_subdomain positive_subdomain) merged

/-- The cell-data half of merge_boundary_data: negative-side cells remapped
and inserted, positive-side cells remapped with their vertex indices shifted;
a collision is a programming error (panic in the source, none here). -/
def merge_boundary_cell_maps (target_subdomain negative_subdomain : SubdomainGrid)
    (negative_cells : List (ℤ × CellData)) (positive_subdomain : SubdomainGrid)
    (positive_cells : List (ℤ × CellData)) (positive_vertex_offset : ℕ) :
    Option (List (ℤ × CellData)) :=
  let merged := negative_cells.foldl
    (fun m e =>
      match negative_subdomain.map_flat_cell_index_to target_subdomain e.1 with
      | some k => minsert m k e.2
      | none => m) []
  positive_cells.foldlM
    (fun m e =>
      match positive_subdomain.map_flat_cell_index_to target_subdomain e.1 with
      | some k =>
        match mlookup m k with
        | some _ => none
        | none => some (minsert m k (e.2.offset_vertices positive_vertex_offset))
      | none => some m) merged

/-- merge_boundary_data: merge the density maps and the cell maps of the two
sides into the target subdomain. -/
def merge_boundary_data (target_subdomain negative_subdomain : SubdomainGrid)
    (negative_data : BoundaryData) (positive_subdomain : SubdomainGrid)
    (positive_data : BoundaryData) (positive_vertex_offset : ℕ) : Option BoundaryData :=
  (merge_boundary_cell_maps target_subdomain negative_subdomain
      negative_data.boundary_cell_data positive_subdomain positive_data.boundary_cell_data
      positive_vertex_offset).map
    (fun cm =>
      { boundary_density_map := merge_boundary_density_maps target_subdomain
          negative_subdomain negative_data.boundary_density_map positive_subdomain
          positive_data.boundary_density_map
        boundary_cell_data := cm })

theorem nodupKeys_entry_unique {α β : Type} [DecidableEq α] (m : List (α × β))
    (hnd : NodupKeys m) (e1 e2 : α × β) (h1 : e1 ∈ m) (h2 : e2 ∈ m) (hk : e1.1 = e2.1) :
    e1 = e2 := by
  induction m with
  | nil => simp at h1
  | cons hd tl ih =>
    simp only [NodupKeys, List.map_cons, List.nodup_cons] at hnd
    rcases List.mem_cons.mp h1 with hh1 | hh1 <;> rcases List.mem_cons.mp h2 with hh2 | hh2
    · rw [hh1, hh2]
    · rw [hh1] at hk
      exact absurd (by rw [hk]; exact List.mem_map_of_mem Prod.fst hh2) hnd.1
    · rw [hh2] at hk
      exact absurd (by rw [← hk]; exact List.mem_map_of_mem Prod.fst hh1) hnd.1
    · exact ih hnd.2 hh1 hh2

theorem negative_fold_no_map (target_subdomain negative_subdomain : SubdomainGrid)
    (l : List (ℤ × ℚ)) (m0 : List (ℤ × ℚ)) (fp : ℤ)
    (h : ∀ e ∈ l, negative_subdomain.map_flat_point_index_to target_subdomain e.1 ≠ some fp) :
    mlookup (l.foldl (negative_density_step target_subdomain negative_subdomain) m0) fp =
      mlookup m0 fp := by
  induction l generalizing m0 with
  | nil => rfl
  | cons hd tl ih =>
    simp only [List.foldl_cons]
    rw [ih _ (fun e he => h e (List.mem_cons_of_mem _ he))]
    unfold negative_density_step
    cases hm : negative_subdomain.map_flat_point_index_to target_subdomain hd.1 with
    | none => rfl
    | some k =>
      have hk : fp ≠ k := fun hc => h hd (by simp) (by rw [hm, hc])
      exact mlookup_minsert_ne _ _ _ _ hk

theorem negative_fold_unique (target_subdomain negative_subdomain : SubdomainGrid)
    (l : List (ℤ × ℚ)) (m0 : List (ℤ × ℚ)) (fp : ℤ) (e0 : ℤ × ℚ)
    (hnd : NodupKeys l) (he : e0 ∈ l)
    (hmap : negative_subdomain.map_flat_point_index_to target_subdomain e0.1 = some fp)
    (huniq : ∀ e ∈ l,
      negative_subdomain.map_flat_point_index_to target_subdomain e.1 = some fp → e = e0) :
    mlookup (l.foldl (negative_density_step target_subdomain negative_subdomain) m0) fp =
      some e0.2 := by
  induction l generalizing m0 with
  | nil => simp at he
  | cons hd tl ih =>
    simp only [NodupKeys, List.map_cons, List.nodup_cons] at hnd
    simp only [List.foldl_cons]
    by_cases hhd : negative_subdomain.map_flat_point_index_to target_subdomain hd.1 = some fp
    · have hhd0 : hd = e0 := huniq hd (by simp) hhd
      subst hhd0
      have hrest : ∀ e ∈ tl,
          negative_subdomain.map_flat_point_index_to target_subdomain e.1 ≠ some fp := by
        intro e he2 hc
        have := huniq e (List.mem_cons_of_mem _ he2) hc
        exact hnd.1 (this ▸ List.mem_map_of_mem Prod.fst he2)
      rw [negative_fold_no_map _ _ tl _ fp hrest]
      unfold negative_density_step
      simp only [hhd]
      exact mlookup_minsert_self _ _ _
    · have he0tl : e0 ∈ tl := by
        rcases List.mem_cons.mp he with h1 | h1
        · exact absurd (h1 ▸ hmap) hhd
        · exact h1
      exact ih _ hnd.2 he0tl (fun e he2 hm => huniq e (List.mem_cons_of_mem _ he2) hm)

theorem positive_fold_no_map (target_subdomain positive_subdomain : SubdomainGrid)
    (l : List (ℤ × ℚ)) (m0 : List (ℤ × ℚ)) (fp : ℤ)
    (h : ∀ e ∈ l, positive_subdomain.map_flat_point_index_to target_subdomain e.1 ≠ some fp) :
    mlookup (l.foldl (positive_density_step target_subdomain positive_subdomain) m0) fp =
      mlookup m0 fp := by
  induction l generalizing m0 with
  | nil => rfl
  | cons hd tl ih =>
    simp only [List.foldl_cons]
    rw [ih _ (fun e he => h e (List.mem_cons_of_mem _ he))]
    unfold positive_density_step
    cases hm : positive_subdomain.map_flat_point_index_to target_subdomain hd.1 with
    | none => rfl
    | some k =>
      have hk : fp ≠ k := fun hc => h hd (by simp) (by rw [hm, hc])
      exact mlookup_mAndModifyOrInsert_ne _ _ _ _ _ hk

theorem positive_fold_unique (target_subdomain positive_subdomain : SubdomainGrid)
    (l : List (ℤ × ℚ)) (m0 : List (ℤ × ℚ)) (fp : ℤ) (e0 : ℤ × ℚ)
    (hnd : NodupKeys l) (he : e0 ∈ l)
    (hmap : positive_subdomain.map_flat_point_index_to target_subdomain e0.1 = some fp)
    (huniq : ∀ e ∈ l,
      positive_subdomain.map_flat_point_index_to target_subdomain e.1 = some fp → e = e0) :
    mlookup (l.foldl (positive_density_step target_subdomain positive_subdomain) m0) fp =
      some (match mlookup m0 fp with
        | some density => (density + e0.2) / (1 + 1)
        | none => e0.2) := by
  induction l generalizing m0 with
  | nil => simp at he
  | cons hd tl ih =>
    simp only [NodupKeys, List.map_cons, List.nodup_cons] at hnd
    simp only [List.foldl_cons]
    by_cases hhd : positive_subdomain.map_flat_point_index_to target_subdomain hd.1 = some fp
    · have hhd0 : hd = e0 := huniq hd (by simp) hhd
      subst hhd0
      have hrest : ∀ e ∈ tl,
          positive_subdomain.map_flat_point_index_to target_subdomain e.1 ≠ some fp := by
        intro e he2 hc
        have := huniq e (List.mem_cons_of_mem _ he2) hc
        exact hnd.1 (this ▸ List.mem_map_of_mem Prod.fst he2)
      rw [positive_fold_no_map _ _ tl _ fp hrest]
      unfold positive_density_step
      simp only [hhd]
      rw [mlookup_mAndModifyOrInsert_self m0 fp
        (fun density => (density + hd.2) / (1 + 1)) hd.2]
      cases mlookup m0 fp <;> rfl
    · have he0tl : e0 ∈ tl := by
        rcases List.mem_cons.mp he with h1 | h1
        · exact absurd (h1 ▸ hmap) hhd
        · exact h1
      have hpres : mlookup (positive_density_step target_subdomain positive_subdomain m0 hd) fp
          = mlookup m0 fp := by
        unfold positive_density_step
        cases hm : positive_subdomain.map_flat_point_index_to target_subdomain hd.1 with
        | none => rfl
        | some k =>
          have hk : fp ≠ k := fun hc => hhd (by rw [hm, hc])
          exact mlookup_mAndModifyOrInsert_ne _ _ _ _ _ hk
      rw [ih _ hnd.2 he0tl (fun e he2 hm => huniq e (List.mem_cons_of_mem _ he2) hm), hpres]

/-- C7: merge_boundary_data's density-map merge.  For every flat point index
fp of the target subdomain: a point present on only one side is remapped and
inserted unchanged; a point present on both sides gets the arithmetic mean of
the two values; target points hit by neither side are absent from the result.
(The side maps have distinct keys and at most one key per side maps onto fp,
which holds for the injective subdomain index mapping.) -/
theorem merge_boundary_density_maps_spec (target_subdomain negative_subdomain
    positive_subdomain : SubdomainGrid) (negative_map positive_map : List (ℤ × ℚ)) (fp : ℤ)
    (hndn : NodupKeys negative_map) (hndp : NodupKeys positive_map)
    (hinjn : ∀ e1 ∈ negative_map, ∀ e2 ∈ negative_map,
      negative_subdomain.map_flat_point_index_to target_subdomain e1.1 = some fp →
      negative_subdomain.map_flat_point_index_to target_subdomain e2.1 = some fp → e1.1 = e2.1)
    (hinjp : ∀ e1 ∈ positive_map, ∀ e2 ∈ positive_map,
      positive_subdomain.map_flat_point_index_to target_subdomain e1.1 = some fp →
      positive_subdomain.map_flat_point_index_to target_subdomain e2.1 = some fp →
        e1.1 = e2.1) :
    (∀ e ∈ negative_map,
      negative_subdomain.map_flat_point_index_to target_subdomain e.1 = some fp →
      (∀ e2 ∈ positive_map,
        positive_subdomain.map_flat_point_index_to target_subdomain e2.1 ≠ some fp) →
      mlookup (merge_boundary_density_maps target_subdomain negative_subdomain negative_map
        positive_subdomain positive_map) fp = some e.2) ∧
    (∀ e2 ∈ positive_map,
      positive_subdomain.map_flat_point_index_to target_subdomain e2.1 = some fp →
      (∀ e ∈ negative_map,
        negative_subdomain.map_flat_point_index_to target_subdomain e.1 ≠ some fp) →
      mlookup (merge_boundary_density_maps target_subdomain negative_subdomain negative_map
        positive_subdomain positive_map) fp = some e2.2) ∧
    (∀ e ∈ negative_map, ∀ e2 ∈ positive_map,
      negative_subdomain.map_flat_point_index_to target_subdomain e.1 = some fp →
      positive_subdomain.map_flat_point_index_to target_subdomain e2.1 = some fp →
      mlookup (merge_boundary_density_maps target_subdomain negative_subdomain negative_map
        positive_subdomain positive_map) fp = some ((e.2 + e2.2) / 2)) ∧
    ((∀ e ∈ negative_map,
        negative_subdomain.map_flat_point_index_to target_subdomain e.1 ≠ some fp) →
     (∀ e2 ∈ positive_map,
        positive_subdomain.map_flat_point_index_to target_subdomain e2.1 ≠ some fp) →
     mlookup (merge_boundary_density_maps target_subdomain negative_subdomain negative_map
       positive_subdomain positive_map) fp = none) := by
  unfold merge_boundary_density_maps
  refine ⟨?_, ?_, ?_, ?_⟩
  · -- negative only
    intro e he hmap hnone
    rw [positive_fold_no_map _ _ positive_map _ fp hnone]
    refine negative_fold_unique _ _ negative_map _ fp e hndn he hmap ?_
    intro e2 he2 hm2
    exact nodupKeys_entry_unique negative_map hndn e2 e he2 he
      (hinjn e2 he2 e he hm2 hmap)
  · -- positive only
    intro e2 he2 hmap hnone
    rw [positive_fold_unique _ _ positive_map _ fp e2 hndp he2 hmap ?_]
    · rw [negative_fold_no_map _ _ negative_map _ fp hnone]
      simp [mlookup]
    · intro e3 he3 hm3
      exact nodupKeys_entry_unique positive_map hndp e3 e2 he3 he2
        (hinjp e3 he3 e2 he2 hm3 hmap)
  · -- both sides: arithmetic mean
    intro e he e2 he2 hmapn hmapp
    rw [positive_fold_unique _ _ positive_map _ fp e2 hndp he2 hmapp ?_]
    · rw [negative_fold_unique _ _ negative_map _ fp e hndn he hmapn ?_]
      · norm_num
      · intro e3 he3 hm3
        exact nodupKeys_entry_unique negative_map hndn e3 e he3 he
          (hinjn e3 he3 e he hm3 hmapn)
    · intro e3 he3 hm3
      exact nodupKeys_entry_unique positive_map hndp e3 e2 he3 he2
        (hinjp e3 he3 e2 he2 hm3 hmapp)
  · -- neither side
    intro hnonen hnonep
    rw [positive_fold_no_map _ _ positive_map _ fp hnonep]
    rw [negative_fold_no_map _ _ negative_map _ fp hnonen]
    rfl

/-- Witness subdomains: the target covers two cells along X, the negative and
positive sides one cell each, meeting at x = 1. -/
def witness_target_subdomain : SubdomainGrid :=
  ⟨⟨⟨0, 0, 0⟩, ⟨2, 1, 1⟩, 1⟩, ⟨⟨0, 0, 0⟩, ⟨2, 1, 1⟩, 1⟩, ⟨0, 0, 0⟩⟩

def witness_negative_subdomain : SubdomainGrid :=
  ⟨⟨⟨0, 0, 0⟩, ⟨2, 1, 1⟩, 1⟩, ⟨⟨0, 0, 0⟩, ⟨1, 1, 1⟩, 1⟩, ⟨0, 0, 0⟩⟩

def witness_positive_subdomain : SubdomainGrid :=
  ⟨⟨⟨0, 0, 0⟩, ⟨2, 1, 1⟩, 1⟩, ⟨⟨1, 0, 0⟩, ⟨1, 1, 1⟩, 1⟩, ⟨1, 0, 0⟩⟩

/-- Witness for C7: the shared point (1,0,0) carries 3 on the negative side
and 5 on the positive side; the merged density map holds their arithmetic
mean at the corresponding target index. -/
theorem merge_boundary_density_maps_spec_witness :
    mlookup (merge_boundary_density_maps witness_target_subdomain
      witness_negative_subdomain [(1, 3)] witness_positive_subdomain [(0, 5)]) 1 =
      some ((3 + 5) / 2) :=
  (merge_boundary_density_maps_spec witness_target_subdomain witness_negative_subdomain
      witness_positive_subdomain [(1, 3)] [(0, 5)] 1 (by decide) (by decide) (by decide)
      (by decide)).2.2.1 (1, 3) (by decide) (0, 5) (by decide) (by decide) (by decide)

/-! ## Surface patches and mesh stitching (marching_cubes.rs: SurfacePatch,
to_domain, collect_boundary_cell_data, interpolate_points_to_cell_data_stitching,
compute_stitching_domain, compute_stitching_result_domain, stitch_meshes) -/

/-- Modelled from the spec: a fixed-size container indexed by the six directed
axes (topology.rs DirectedAxisArray). -/
structure DirectedAxisArray (α : Type) : Type where
  neg_x : α
  pos_x : α
  neg_y : α
  pos_y : α
  neg_z : α
  pos_z : α
  deriving DecidableEq, Repr

def DirectedAxisArray.get {α : Type} (a : DirectedAxisArray α) : DirectedAxis → α
  | ⟨Axis.X, Direction.Negative⟩ => a.neg_x
  | ⟨Axis.X, Direction.Positive⟩ => a.pos_x
  | ⟨Axis.Y, Direction.Negative⟩ => a.neg_y
  | ⟨Axis.Y, Direction.Positive⟩ => a.pos_y
  | ⟨Axis.Z, Direction.Negative⟩ => a.neg_z
  | ⟨Axis.Z, Direction.Positive⟩ => a.pos_z

def DirectedAxisArray.set {α : Type} (a : DirectedAxisArray α) : DirectedAxis → α → DirectedAxisArray α
  | ⟨Axis.X, Direction.Negative⟩, v => { a with neg_x := v }
  | ⟨Axis.X, Direction.Positive⟩, v => { a with pos_x := v }
  | ⟨Axis.Y, Direction.Negative⟩, v => { a with neg_y := v }
  | ⟨Axis.Y, Direction.Positive⟩, v => { a with pos_y := v }
  | ⟨Axis.Z, Direction.Negative⟩, v => { a with neg_z := v }
  | ⟨Axis.Z, Direction.Positive⟩, v => { a with pos_z := v }

def DirectedAxisArray.new_with {α : Type} (f : DirectedAxis → α) : DirectedAxisArray α :=
  ⟨f ⟨Axis.X, Direction.Negative⟩, f ⟨Axis.X, Direction.Positive⟩,
   f ⟨Axis.Y, Direction.Negative⟩, f ⟨Axis.Y, Direction.Positive⟩,
   f ⟨Axis.Z, Direction.Negative⟩, f ⟨Axis.Z, Direction.Positive⟩⟩

/-- new_with for a fallible builder (used because several panics inside the
boundary-data construction of stitch_meshes are modelled as Option). -/
def DirectedAxisArray.new_with_opt {α : Type} (f : DirectedAxis → Option α) :
    Option (DirectedAxisArray α) :=
  match f ⟨Axis.X, Direction.Negative⟩, f ⟨Axis.X, Direction.Positive⟩,
      f ⟨Axis.Y, Direction.Negative⟩, f ⟨Axis.Y, Direction.Positive⟩,
      f ⟨Axis.Z, Direction.Negative⟩, f ⟨Axis.Z, Direction.Positive⟩ with
  | some a, some b, some c, some d, some e, some g => some ⟨a, b, c, d, e, g⟩
  | _, _, _, _, _, _ => none

/-- Modelled from the spec: a triangle mesh as vertex and triangle buffers
(mesh.rs TriMesh3d). -/
structure TriMesh3d : Type where
  vertices : List R3
  triangles : List (ℕ × ℕ × ℕ)
  deriving DecidableEq

/-- A surface patch: local mesh, subdomain, six-face boundary data, and the
stitching level. -/
structure SurfacePatch : Type where
  mesh : TriMesh3d
  subdomain : SubdomainGrid
  data : DirectedAxisArray BoundaryData
  stitching_level : ℕ
  deriving DecidableEq

/-- BoundaryData::to_domain: convert all indices to another subdomain,
dropping unmappable ones, optionally shifting vertex indices. -/
def BoundaryData.to_domain (self : BoundaryData) (target_domain source_domain : SubdomainGrid)
    (vertex_offset : Option ℕ) : BoundaryData :=
  { boundary_density_map := self.boundary_density_map.foldl
      (fun m e =>
        match source_domain.map_flat_point_index_to target_domain e.1 with
        | some k => minsert m k e.2
        | none => m) []
    boundary_cell_data := self.boundary_cell_data.foldl
      (fun m e =>
        match source_domain.map_flat_cell_index_to target_domain e.1 with
        | some k =>
          minsert m k
            (match vertex_offset with
             | some off => e.2.offset_vertices off
             | none => e.2)
        | none => m) [] }

/-- collect_boundary_cell_data: clone the cell data of every cell lying on a
boundary face into that face's map (a cell on an edge or corner of the
subdomain lands in 2 or 3 slots).  The source panics on an unflattenable
index; modelled by skipping the entry. -/
def collect_boundary_cell_data (subdomain : SubdomainGrid)
    (cell_data : List (ℤ × CellData)) : DirectedAxisArray (List (ℤ × CellData)) :=
  cell_data.foldl
    (fun acc e =>
      match subdomain.subdomain_grid.try_unflatten_cell_index e.1 with
      | none => acc
      | some cell_index =>
        (GridBoundaryFaceFlags.classify_cell subdomain.subdomain_grid cell_index).foldl
          (fun acc2 boundary => acc2.set boundary (minsert (acc2.get boundary) e.1 e.2)) acc)
    (DirectedAxisArray.new_with (fun _ => []))

/-- Detects points on the two stitching surfaces of the stitching domain
(interpolate_points_to_cell_data_stitching). -/
def point_is_on_stitching_surface (g : UniformGrid) (stitching_axis : Axis) (p : I3) : Bool :=
  decide (p.get stitching_axis = 0 ∨
    p.get stitching_axis = g.points_per_dim.get stitching_axis - 1)

/-- Detects points on a boundary other than the stitching surfaces. -/
def point_is_outside_stitching (g : UniformGrid) (stitching_axis : Axis) (p : I3) : Bool :=
  let a12 := stitching_axis.orthogonal_axes
  decide (p.get a12.1 = 0 ∨ p.get a12.1 = g.points_per_dim.get a12.1 - 1 ∨
    p.get a12.2 = 0 ∨ p.get a12.2 = g.points_per_dim.get a12.2 - 1)

/-- One neighbour-edge iteration of the stitching variant of Pass A: same as
the full variant, but edges on the stitching surfaces and edges leaving the
stitching slab sideways are skipped. -/
def step_neighbor_stitching (g : UniformGrid) (dm : DensityMap)
    (iso_surface_threshold : ℚ) (stitching_axis : Axis) (p : I3) (vp : ℚ)
    (st : MCState) (dir : DirectedAxis) : MCState :=
  match g.get_point_neighbor p dir with
  | none => st
  | some q =>
    match dm.get (g.flatten_point_index q) with
    | none => st
    | some vq =>
      if ¬(vq > iso_surface_threshold) then st
      else if point_is_on_stitching_surface g stitching_axis p ∧
          point_is_on_stitching_surface g stitching_axis q then st
      else if point_is_outside_stitching g stitching_axis q then st
      else
        let e : EdgeIndex :=
          if dir.direction.is_positive then ⟨p, dir.axis⟩ else ⟨q, dir.axis⟩
        let alpha := mc_alpha iso_surface_threshold vp vq
        let vi := st.vertices.length
        { vertices := st.vertices ++ [interpolate_vertex g p q alpha]
          cell_data := record_edge_crossing g e q vi st.cell_data }

/-- One density-map entry of the stitching variant of Pass A. -/
def pass_a_step_stitching (g : UniformGrid) (dm : DensityMap) (iso_surface_threshold : ℚ)
    (stitching_axis : Axis) (st : MCState) (entry : ℤ × ℚ) : MCState :=
  if entry.2 > iso_surface_threshold then st
  else
    match g.try_unflatten_point_index entry.1 with
    | none => st
    | some p =>
      if point_is_outside_stitching g stitching_axis p then st
      else
        DirectedAxis.all.foldl
          (step_neighbor_stitching g dm iso_surface_threshold stitching_axis p entry.2) st

/-- Pass B of the stitching variant: unlike the full variant, an existing
Above flag is NOT preserved (a corner may legitimately flip because the
stitching domain re-interpolates merged density data). -/
def pass_b_cell_stitching (g : UniformGrid) (dm : DensityMap) (iso_surface_threshold : ℚ)
    (flat_cell_index : ℤ) (d : CellData) : CellData :=
  match g.try_unflatten_cell_index flat_cell_index with
  | none => d
  | some c =>
    { d with
      corner_above_threshold := fun k =>
        match dm.get (g.flatten_point_index (global_point_index_of c k)) with
        | some point_value =>
          if point_value > iso_surface_threshold then RelativeToThreshold.Above
          else RelativeToThreshold.Below
        | none => RelativeToThreshold.Below }

/-- interpolate_points_to_cell_data_stitching: the stitching variant of the
two interpolation passes, operating on an already-built cell-data map and
appending to the given vertex buffer. -/
def interpolate_points_to_cell_data_stitching (g : UniformGrid) (dm : DensityMap)
    (iso_surface_threshold : ℚ) (stitching_axis : Axis) (vertices : List R3)
    (cell_data : List (ℤ × CellData)) : MCState :=
  let st := dm.foldl (pass_a_step_stitching g dm iso_surface_threshold stitching_axis)
    ⟨vertices, cell_data⟩
  { vertices := st.vertices
    cell_data := st.cell_data.map
      (fun e => (e.1, pass_b_cell_stitching g dm iso_surface_threshold e.1 e.2)) }

/-- compute_stitching_domain: the two-cell-deep subdomain straddling the
shared face of the two sides.  The source's assertions (same global grid,
directly meeting subdomains, identical cross sections) are modelled as
checks returning none. -/
def compute_stitching_domain (stitching_axis : Axis) (global_grid : UniformGrid)
    (negative_subdomain positive_subdomain : SubdomainGrid) : Option SubdomainGrid :=
  if negative_subdomain.global_grid = global_grid ∧
      positive_subdomain.global_grid = global_grid then
    -- starting at the negative offset and walking its cell count along the
    -- axis we must arrive at the positive offset
    let lower_corner_end := (negative_subdomain.subdomain_offset).set stitching_axis
      ((negative_subdomain.subdomain_offset).get stitching_axis +
        (negative_subdomain.subdomain_grid.cells_per_dim).get stitching_axis)
    if lower_corner_end = positive_subdomain.subdomain_offset then
      let n_cells_per_dim_neg :=
        (negative_subdomain.subdomain_grid.cells_per_dim).set stitching_axis 2
      let n_cells_per_dim_pos :=
        (positive_subdomain.subdomain_grid.cells_per_dim).set stitching_axis 2
      if n_cells_per_dim_neg = n_cells_per_dim_pos then
        let stitching_grid_offset := (negative_subdomain.subdomain_offset).set stitching_axis
          ((negative_subdomain.subdomain_offset).get stitching_axis +
            (negative_subdomain.subdomain_grid.cells_per_dim).get stitching_axis - 1)
        let lower_corner_coords := global_grid.point_coordinates stitching_grid_offset
        match UniformGrid.new lower_corner_coords n_cells_per_dim_neg global_grid.cell_size with
        | some stitching_grid =>
          some ⟨global_grid, stitching_grid, stitching_grid_offset⟩
        | none => none
      else none
    else none
  else none

/-- compute_stitching_result_domain: the union of the two subdomains along
the stitching axis. -/
def compute_stitching_result_domain (stitching_axis : Axis) (global_grid : UniformGrid)
    (negative_subdomain positive_subdomain : SubdomainGrid) : Option SubdomainGrid :=
  let n_cells_per_dim := (negative_subdomain.subdomain_grid.cells_per_dim).set stitching_axis
    ((negative_subdomain.subdomain_grid.cells_per_dim).get stitching_axis +
      (positive_subdomain.subdomain_grid.cells_per_dim).get stitching_axis)
  match UniformGrid.new negative_subdomain.subdomain_grid.origin n_cells_per_dim
      global_grid.cell_size with
  | some subdomain_grid =>
    some ⟨global_grid, subdomain_grid, negative_subdomain.subdomain_offset⟩
  | none => none

/-- The overlay of a slab boundary cell onto already-merged cell data in step
6 of stitch_meshes: the slab's corner flags replace the existing ones and the
vertex slots are unioned; a conflicting override is a panic (none). -/
def overlay_slab_cell (existing_cell_data new_cell_data : CellData) : Option CellData :=
  if ∀ j, existing_cell_data.iso_surface_vertices j = new_cell_data.iso_surface_vertices j ∨
      existing_cell_data.iso_surface_vertices j = none then
    some
      { corner_above_threshold := new_cell_data.corner_above_threshold
        iso_surface_vertices := fun j =>
          if existing_cell_data.iso_surface_vertices j = new_cell_data.iso_surface_vertices j
          then existing_cell_data.iso_surface_vertices j
          else new_cell_data.iso_surface_vertices j }
  else none

/-- stitch_meshes: stitch two axis-adjacent surface patches into one.  All
panics of the source (failed preconditions, merge conflicts, overlay
conflicts) are modelled by a none result. -/
def stitch_meshes (table : McTable) (iso_surface_threshold : ℚ) (stitching_axis : Axis)
    (negative_side positive_side : SurfacePatch) : Option SurfacePatch :=
  if negative_side.subdomain.global_grid = positive_side.subdomain.global_grid then
    let global_grid := negative_side.subdomain.global_grid
    match compute_stitching_domain stitching_axis global_grid negative_side.subdomain
        positive_side.subdomain with
    | none => none
    | some stitching_subdomain =>
      -- merge the two meshes, shifting the positive side's vertex indices
      let positive_vertex_offset := negative_side.mesh.vertices.length
      let output_vertices := negative_side.mesh.vertices ++ positive_side.mesh.vertices
      let output_triangles := negative_side.mesh.triangles ++
        positive_side.mesh.triangles.map
          (fun t => (t.1 + positive_vertex_offset, t.2.1 + positive_vertex_offset,
            t.2.2 + positive_vertex_offset))
      -- merge the boundary data at the stitching boundaries of the two patches
      let negative_data := negative_side.data.get ⟨stitching_axis, Direction.Positive⟩
      let positive_data := positive_side.data.get ⟨stitching_axis, Direction.Negative⟩
      match merge_boundary_data stitching_subdomain negative_side.subdomain negative_data
          positive_side.subdomain positive_data positive_vertex_offset with
      | none => none
      | some merged_boundary_data =>
        -- marching cubes on the stitching domain
        let st := interpolate_points_to_cell_data_stitching
          stitching_subdomain.subdomain_grid merged_boundary_data.boundary_density_map
          iso_surface_threshold stitching_axis output_vertices
          merged_boundary_data.boundary_cell_data
        let boundary_cell_data := collect_boundary_cell_data stitching_subdomain st.cell_data
        let output_triangles2 := triangulate_with_criterion stitching_subdomain st.cell_data
          output_triangles (triangulation_stitching_interior stitching_axis)
          default_triangle_generator table
        match compute_stitching_result_domain stitching_axis global_grid
            negative_side.subdomain positive_side.subdomain with
        | none => none
        | some output_subdomain_grid =>
          -- merge all remaining boundary data for the six faces of the result
          let build_face := fun (directed_axis : DirectedAxis) =>
            if directed_axis = ⟨stitching_axis, Direction.Negative⟩ then
              some ((negative_side.data.get directed_axis).to_domain output_subdomain_grid
                negative_side.subdomain none)
            else if directed_axis = ⟨stitching_axis, Direction.Positive⟩ then
              some ((positive_side.data.get directed_axis).to_domain output_subdomain_grid
                positive_side.subdomain (some positive_vertex_offset))
            else
              match merge_boundary_data output_subdomain_grid negative_side.subdomain
                  (negative_side.data.get directed_axis) positive_side.subdomain
                  (positive_side.data.get directed_axis) positive_vertex_offset with
              | none => none
              | some merged_data =>
                ((boundary_cell_data.get directed_axis).foldlM
                  (fun (cells : List (ℤ × CellData)) (e : ℤ × CellData) =>
                    match stitching_subdomain.map_flat_cell_index_to output_subdomain_grid
                        e.1 with
                    | none => some cells
                    | some flat_result_cell_index =>
                      match mlookup cells flat_result_cell_index with
                      | none => some (minsert cells flat_result_cell_index e.2)
                      | some existing_cell_data =>
                        match overlay_slab_cell existing_cell_data e.2 with
                        | none => none
                        | some merged_cell =>
                          some (minsert cells flat_result_cell_index merged_cell))
                  merged_data.boundary_cell_data).map
                  (fun cd => { merged_data with boundary_cell_data := cd })
          match DirectedAxisArray.new_with_opt build_face with
          | none => none
          | some output_boundary_data =>
            some
              { mesh := ⟨st.vertices, output_triangles2⟩
                subdomain := output_subdomain_grid
                data := output_boundary_data
                stitching_level :=
                  max negative_side.stitching_level positive_side.stitching_level }
  else none

/-- C4 (amended): stitch_meshes itself returns the maximum of the two input
stitching levels, without an increment. -/
theorem stitch_meshes_stitching_level (table : McTable) (iso_surface_threshold : ℚ)
    (stitching_axis : Axis) (negative_side positive_side : SurfacePatch) (r : SurfacePatch)
    (h : stitch_meshes table iso_surface_threshold stitching_axis negative_side
      positive_side = some r) :
    r.stitching_level = max negative_side.stitching_level positive_side.stitching_level := by
  unfold stitch_meshes at h
  split at h
  · simp only [] at h
    split at h
    · exact Option.noConfusion h
    · split at h
      · exact Option.noConfusion h
      · split at h
        · exact Option.noConfusion h
        · split at h
          · exact Option.noConfusion h
          · have := Option.some_injective _ h
            rw [← this]
  · exact Option.noConfusion h

/-- One surface patch with no mesh and no boundary data over a given
subdomain. -/
def empty_patch (subdomain : SubdomainGrid) : SurfacePatch :=
  { mesh := ⟨[], []⟩
    subdomain := subdomain
    data := DirectedAxisArray.new_with (fun _ => BoundaryData.empty)
    stitching_level := 0 }

/-- The empty triangulation table (any table works for the stitching-level
counterexample). -/
def empty_mc_table : McTable := fun _ => []

/-- C4 (counterexample): a stitch_meshes call as performed during octree
stitching, on two adjacent level-0 patches, returns a patch of stitching
level 0, not max(0,0) + 1 = 1. -/
theorem stitch_meshes_stitching_level_counterexample :
    ((stitch_meshes empty_mc_table 1 Axis.X (empty_patch witness_negative_subdomain)
        (empty_patch witness_positive_subdomain)).map SurfacePatch.stitching_level
      = some 0) ∧ (0 : ℕ) ≠ max 0 0 + 1 := by
  constructor
  · rfl
  · decide

/-- Witness for the amended C4 at the concrete level-0 patches. -/
theorem stitch_meshes_stitching_level_witness :
    (stitch_meshes empty_mc_table 1 Axis.X (empty_patch witness_negative_subdomain)
        (empty_patch witness_positive_subdomain)).map SurfacePatch.stitching_level
      = some (max 0 0) := by
  have h : stitch_meshes empty_mc_table 1 Axis.X (empty_patch witness_negative_subdomain)
      (empty_patch witness_positive_subdomain) =
      some ((stitch_meshes empty_mc_table 1 Axis.X (empty_patch witness_negative_subdomain)
        (empty_patch witness_positive_subdomain)).getD
          (empty_patch witness_negative_subdomain)) := by rfl
  rw [h]
  exact congrArg some
    (stitch_meshes_stitching_level empty_mc_table 1 Axis.X
      (empty_patch witness_negative_subdomain) (empty_patch witness_positive_subdomain) _ h)

/-! ## Octants and octree stitching (octree.rs: octant_helper,
stitch_children_orthogonal_to, stitch_surface_patches) -/

def Direction.new_positive (positive : Bool) : Direction :=
  if positive then Direction.Positive else Direction.Negative

/-- Representation of a cartesian coordinate system octant using a direction
along each coordinate axis. -/
structure OctantAxisDirections : Type where
  x_axis : Direction
  y_axis : Direction
  z_axis : Direction
  deriving DecidableEq, Repr

def OctantAxisDirections.from_bool (x_positive y_positive z_positive : Bool) :
    OctantAxisDirections :=
  ⟨Direction.new_positive x_positive, Direction.new_positive y_positive,
    Direction.new_positive z_positive⟩

/-- All octants, in the order of the source's Octant enum (NegNegNeg,
PosNegNeg, NegPosNeg, PosPosNeg, NegNegPos, PosNegPos, NegPosPos,
PosPosPos). -/
def OctantAxisDirections.all : List OctantAxisDirections :=
  [OctantAxisDirections.from_bool false false false,
   OctantAxisDirections.from_bool true false false,
   OctantAxisDirections.from_bool false true false,
   OctantAxisDirections.from_bool true true false,
   OctantAxisDirections.from_bool false false true,
   OctantAxisDirections.from_bool true false true,
   OctantAxisDirections.from_bool false true true,
   OctantAxisDirections.from_bool true true true]

def OctantAxisDirections.direction (o : OctantAxisDirections) : Axis → Direction
  | Axis.X => o.x_axis
  | Axis.Y => o.y_axis
  | Axis.Z => o.z_axis

def OctantAxisDirections.set_direction (o : OctantAxisDirections) :
    Axis → Direction → OctantAxisDirections
  | Axis.X, d => { o with x_axis := d }
  | Axis.Y, d => { o with y_axis := d }
  | Axis.Z, d => { o with z_axis := d }

/-- One iteration of the octant loop of stitch_children_orthogonal_to: for an
octant on the negative side of the stitching axis, remove the pair, stitch
it, and insert the result under the octant key with its direction set to
positive.  A present negative side without its positive sibling is a panic
(none). -/
def stitch_children_step (table : McTable) (iso_surface_threshold : ℚ)
    (stitching_axis : Axis) (children_map : List (OctantAxisDirections × SurfacePatch))
    (octant : OctantAxisDirections) :
    Option (List (OctantAxisDirections × SurfacePatch)) :=
  if (octant.direction stitching_axis).is_positive then some children_map
  else
    match mremove children_map octant with
    | none => some children_map
    | some (negative_side, m1) =>
      let octant_pos := octant.set_direction stitching_axis Direction.Positive
      match mremove m1 octant_pos with
      | none => none
      | some (positive_side, m2) =>
        match stitch_meshes table iso_surface_threshold stitching_axis negative_side
            positive_side with
        | none => none
        | some stitched_patch => some (minsert m2 octant_pos stitched_patch)

/-- stitch_children_orthogonal_to: one axis pass over all octants. -/
def stitch_children_orthogonal_to (table : McTable) (iso_surface_threshold : ℚ)
    (stitching_axis : Axis) (children_map : List (OctantAxisDirections × SurfacePatch)) :
    Option (List (OctantAxisDirections × SurfacePatch)) :=
  OctantAxisDirections.all.foldlM
    (fun m octant => stitch_children_step table iso_surface_threshold stitching_axis m octant)
    children_map

/-- stitch_surface_patches: build the children map keyed by octant, run the
three axis passes in the order X, Y, Z, check that exactly one patch remains
and increment its stitching level once. -/
def stitch_surface_patches (table : McTable) (iso_surface_threshold : ℚ)
    (children : List SurfacePatch) : Option SurfacePatch :=
  let children_map := (OctantAxisDirections.all.zip children).foldl
    (fun m e => minsert m e.1 e.2) []
  match stitch_children_orthogonal_to table iso_surface_threshold Axis.X children_map with
  | none => none
  | some m1 =>
    match stitch_children_orthogonal_to table iso_surface_threshold Axis.Y m1 with
    | none => none
    | some m2 =>
      match stitch_children_orthogonal_to table iso_surface_threshold Axis.Z m2 with
      | none => none
      | some m3 =>
        match m3 with
        | [(_, stitched_patch)] =>
          some { stitched_patch with stitching_level := stitched_patch.stitching_level + 1 }
        | _ => none

theorem nodupKeys_minsert {α β : Type} [DecidableEq α] (m : List (α × β)) (k : α) (v : β)
    (hnd : NodupKeys m) : NodupKeys (minsert m k v) := by
  induction m with
  | nil => simp [minsert, NodupKeys]
  | cons hd tl ih =>
    cases hd with
    | mk k0 v0 =>
      simp only [NodupKeys, List.map_cons, List.nodup_cons] at hnd
      by_cases hk : k = k0
      · subst hk
        have hins : minsert ((k, v0) :: tl) k v = (k, v) :: tl := by simp [minsert]
        rw [hins]
        simpa [NodupKeys] using hnd
      · simp only [minsert, if_neg hk, NodupKeys, List.map_cons, List.nodup_cons]
        refine ⟨?_, ih hnd.2⟩
        intro hmem
        -- keys of minsert tl k v are keys of tl plus k
        have : ∀ k', k' ∈ (minsert tl k v).map Prod.fst → k' = k ∨ k' ∈ tl.map Prod.fst := by
          intro k' hk'
          clear hmem ih hnd
          induction tl with
          | nil => simp [minsert] at hk'; exact Or.inl hk'
          | cons hd2 tl2 ih2 =>
            cases hd2 with
            | mk k2 v2 =>
              by_cases hk2 : k = k2
              · subst hk2
                simp only [minsert, if_pos rfl, List.map_cons] at hk'
                rcases List.mem_cons.mp hk' with h1 | h1
                · exact Or.inl h1
                · exact Or.inr (by simp [h1])
              · simp only [minsert, if_neg hk2, List.map_cons] at hk'
                rcases List.mem_cons.mp hk' with h1 | h1
                · exact Or.inr (by simp [h1])
                · rcases ih2 h1 with h2 | h2
                  · exact Or.inl h2
                  · exact Or.inr (by simp [h2])
        rcases this k0 hmem with h1 | h1
        · exact hk h1.symm
        · exact hnd.1 h1

theorem mlookup_some_mremove {α β : Type} [DecidableEq α] (m : List (α × β)) (k : α) (v : β)
    (h : mlookup m k = some v) : ∃ m2, mremove m k = some (v, m2) := by
  induction m with
  | nil => simp [mlookup] at h
  | cons hd tl ih =>
    cases hd with
    | mk k0 v0 =>
      by_cases hk : k = k0
      · subst hk
        simp [mlookup] at h
        exact ⟨tl, by simp [mremove, h]⟩
      · simp [mlookup, hk] at h
        obtain ⟨m2, hm2⟩ := ih h
        exact ⟨(k0, v0) :: m2, by simp [mremove, hk, hm2]⟩

theorem octant_set_direction_direction (o : OctantAxisDirections) (a : Axis) (d : Direction) :
    (o.set_direction a d).direction a = d := by
  cases a <;> rfl

theorem octant_set_direction_inj (a : Axis) (x o : OctantAxisDirections)
    (hx : x.direction a = o.direction a)
    (h : x.set_direction a Direction.Positive = o.set_direction a Direction.Positive) :
    x = o := by
  cases x; cases o
  cases a <;> simp_all [OctantAxisDirections.set_direction, OctantAxisDirections.direction]

theorem octant_ne_of_direction_ne (a : Axis) (x y : OctantAxisDirections)
    (h : x.direction a ≠ y.direction a) : x ≠ y := fun hc => h (hc ▸ rfl)

theorem foldlM_opt_preserves {α σ : Type} (P : σ → Prop) (f : σ → α → Option σ)
    (l : List α) (hpres : ∀ s x s', x ∈ l → f s x = some s' → P s → P s') :
    ∀ s s', l.foldlM f s = some s' → P s → P s' := by
  induction l with
  | nil =>
    intro s s' h hP
    rw [List.foldlM_nil] at h
    exact Option.some.inj h ▸ hP
  | cons x xs ih =>
    intro s s' h hP
    rw [List.foldlM_cons] at h
    cases hx : f s x with
    | none => rw [hx] at h; simp at h
    | some s1 =>
      rw [hx] at h
      exact ih (fun s2 y s3 hy => hpres s2 y s3 (List.mem_cons_of_mem _ hy)) s1 s' h
        (hpres s x s1 (by simp) hx hP)

theorem foldlM_opt_append_split {α σ : Type} (f : σ → α → Option σ) (l1 l2 : List α)
    (a : α) (s s' : σ) (h : (l1 ++ a :: l2).foldlM f s = some s') :
    ∃ s1 s2, l1.foldlM f s = some s1 ∧ f s1 a = some s2 ∧ l2.foldlM f s2 = some s' := by
  induction l1 generalizing s with
  | nil =>
    rw [List.nil_append, List.foldlM_cons] at h
    cases ha : f s a with
    | none => rw [ha] at h; simp at h
    | some s2 =>
      rw [ha] at h
      exact ⟨s, s2, by rw [List.foldlM_nil]; rfl, ha, h⟩
  | cons x xs ih =>
    rw [List.cons_append, List.foldlM_cons] at h
    cases hx : f s x with
    | none => rw [hx] at h; simp at h
    | some s1 =>
      rw [hx] at h
      obtain ⟨sa, sb, h1, h2, h3⟩ := ih s1 h
      exact ⟨sa, sb, by rw [List.foldlM_cons, hx]; simpa using h1, h2, h3⟩

theorem stitch_children_step_lookup (table : McTable) (τ : ℚ) (axis : Axis)
    (m m2 : List (OctantAxisDirections × SurfacePatch)) (x : OctantAxisDirections)
    (h : stitch_children_step table τ axis m x = some m2) (key : OctantAxisDirections)
    (hkeys : x.direction axis = Direction.Negative →
      key ≠ x ∧ key ≠ x.set_direction axis Direction.Positive) :
    mlookup m2 key = mlookup m key := by
  unfold stitch_children_step at h
  by_cases hpos : (x.direction axis).is_positive = true
  · rw [if_pos hpos] at h
    rw [Option.some.inj h]
  · rw [if_neg hpos] at h
    have hxneg : x.direction axis = Direction.Negative := by
      cases hd : x.direction axis
      · rfl
      · rw [hd] at hpos; simp [Direction.is_positive] at hpos
    obtain ⟨hk1, hk2⟩ := hkeys hxneg
    cases hrem : mremove m x with
    | none =>
      rw [hrem] at h
      rw [Option.some.inj h]
    | some pm1 =>
      obtain ⟨p1, m1⟩ := pm1
      rw [hrem] at h
      simp only [] at h
      cases hrem2 : mremove m1 (x.set_direction axis Direction.Positive) with
      | none => rw [hrem2] at h; exact Option.noConfusion h
      | some qm2 =>
        obtain ⟨q1, mB⟩ := qm2
        rw [hrem2] at h
        simp only [] at h
        cases hst : stitch_meshes table τ axis p1 q1 with
        | none => rw [hst] at h; exact Option.noConfusion h
        | some rp =>
          rw [hst] at h
          simp only [] at h
          rw [← Option.some.inj h]
          rw [mlookup_minsert_ne _ _ _ _ hk2]
          rw [mremove_lookup_ne m1 _ key q1 mB hrem2 hk2]
          exact mremove_lookup_ne m x key p1 m1 hrem hk1

theorem stitch_children_step_nodup (table : McTable) (τ : ℚ) (axis : Axis)
    (m m2 : List (OctantAxisDirections × SurfacePatch)) (x : OctantAxisDirections)
    (h : stitch_children_step table τ axis m x = some m2) (hnd : NodupKeys m) :
    NodupKeys m2 := by
  unfold stitch_children_step at h
  by_cases hpos : (x.direction axis).is_positive = true
  · rw [if_pos hpos] at h
    rw [← Option.some.inj h]
    exact hnd
  · rw [if_neg hpos] at h
    cases hrem : mremove m x with
    | none =>
      rw [hrem] at h
      rw [← Option.some.inj h]
      exact hnd
    | some pm1 =>
      obtain ⟨p1, m1⟩ := pm1
      rw [hrem] at h
      simp only [] at h
      have hnd1 : NodupKeys m1 := nodupKeys_mremove m x p1 m1 hnd hrem
      cases hrem2 : mremove m1 (x.set_direction axis Direction.Positive) with
      | none => rw [hrem2] at h; exact Option.noConfusion h
      | some qm2 =>
        obtain ⟨q1, mB⟩ := qm2
        rw [hrem2] at h
        simp only [] at h
        have hnd2 : NodupKeys mB := nodupKeys_mremove m1 _ q1 mB hnd1 hrem2
        cases hst : stitch_meshes table τ axis p1 q1 with
        | none => rw [hst] at h; exact Option.noConfusion h
        | some rp =>
          rw [hst] at h
          simp only [] at h
          rw [← Option.some.inj h]
          exact nodupKeys_minsert _ _ _ hnd2

theorem stitch_children_step_establishes (table : McTable) (τ : ℚ) (axis : Axis)
    (m m2 : List (OctantAxisDirections × SurfacePatch)) (o : OctantAxisDirections)
    (p q r : SurfacePatch) (hnd : NodupKeys m)
    (hneg : o.direction axis = Direction.Negative)
    (hp : mlookup m o = some p)
    (hq : mlookup m (o.set_direction axis Direction.Positive) = some q)
    (hr : stitch_meshes table τ axis p q = some r)
    (h : stitch_children_step table τ axis m o = some m2) :
    mlookup m2 (o.set_direction axis Direction.Positive) = some r ∧ mlookup m2 o = none := by
  have hone : o ≠ o.set_direction axis Direction.Positive := by
    apply octant_ne_of_direction_ne axis
    rw [hneg, octant_set_direction_direction]
    exact fun hc => Direction.noConfusion hc
  unfold stitch_children_step at h
  rw [if_neg (by rw [hneg]; simp [Direction.is_positive])] at h
  obtain ⟨m1, hm1⟩ := mlookup_some_mremove m o p hp
  rw [hm1] at h
  simp only [] at h
  have hm1q : mlookup m1 (o.set_direction axis Direction.Positive) = some q := by
    rw [mremove_lookup_ne m o _ p m1 hm1 (Ne.symm hone)]
    exact hq
  have hm1o : mlookup m1 o = none := mremove_lookup_self_nodup m o p m1 hnd hm1
  obtain ⟨mB, hmB⟩ := mlookup_some_mremove m1 _ q hm1q
  rw [hmB] at h
  simp only [] at h
  rw [hr] at h
  simp only [] at h
  rw [← Option.some.inj h]
  constructor
  · exact mlookup_minsert_self _ _ _
  · rw [mlookup_minsert_ne _ _ _ _ hone]
    rw [mremove_lookup_ne m1 _ o q mB hmB hone]
    exact hm1o

theorem octant_mem_all (o : OctantAxisDirections) : o ∈ OctantAxisDirections.all := by
  obtain ⟨x, y, z⟩ := o
  cases x <;> cases y <;> cases z <;> decide

theorem octant_keys_safe_neg (axis : Axis) (o x : OctantAxisDirections)
    (hneg : o.direction axis = Direction.Negative) (hxo : o ≠ x) :
    x.direction axis = Direction.Negative →
      o ≠ x ∧ o ≠ x.set_direction axis Direction.Positive := by
  intro _
  refine ⟨hxo, octant_ne_of_direction_ne axis o _ ?_⟩
  rw [hneg, octant_set_direction_direction]
  exact fun hc => Direction.noConfusion hc

theorem octant_keys_safe_pos (axis : Axis) (o x : OctantAxisDirections)
    (hneg : o.direction axis = Direction.Negative) (hxo : o ≠ x) :
    x.direction axis = Direction.Negative →
      o.set_direction axis Direction.Positive ≠ x ∧
        o.set_direction axis Direction.Positive ≠ x.set_direction axis Direction.Positive := by
  intro hxneg
  constructor
  · apply octant_ne_of_direction_ne axis
    rw [octant_set_direction_direction, hxneg]
    exact fun hc => Direction.noConfusion hc
  · intro hc
    exact hxo (octant_set_direction_inj axis o x (hneg.trans hxneg.symm) hc)

/-- C5 (amended): during an axis pass of stitch_surface_patches
(stitch_children_orthogonal_to), a sibling pair differing only in its
direction along the stitching axis is stitched pairwise via stitch_meshes and
the stitched result is inserted back into the children map under the POSITIVE
octant's key for that axis (the source mutates the octant to positive before
inserting, octree.rs:617/:628); the negative octant's key is removed from the
map. -/
theorem stitch_children_orthogonal_to_spec (table : McTable) (τ : ℚ) (axis : Axis)
    (m m' : List (OctantAxisDirections × SurfacePatch)) (o : OctantAxisDirections)
    (p q r : SurfacePatch) (hnd : NodupKeys m)
    (hneg : o.direction axis = Direction.Negative)
    (hp : mlookup m o = some p)
    (hq : mlookup m (o.set_direction axis Direction.Positive) = some q)
    (hr : stitch_meshes table τ axis p q = some r)
    (hpass : stitch_children_orthogonal_to table τ axis m = some m') :
    mlookup m' (o.set_direction axis Direction.Positive) = some r ∧
      mlookup m' o = none := by
  obtain ⟨l1, l2, hsplit⟩ := List.append_of_mem (octant_mem_all o)
  have hnodall : OctantAxisDirections.all.Nodup := by decide
  rw [hsplit] at hnodall
  obtain ⟨h1, h2, hdisj⟩ := List.nodup_append.mp hnodall
  have ho_not_l1 : o ∉ l1 := fun hc => hdisj hc (List.mem_cons_self o l2)
  have ho_not_l2 : o ∉ l2 := (List.nodup_cons.mp h2).1
  unfold stitch_children_orthogonal_to at hpass
  rw [hsplit] at hpass
  obtain ⟨s1, s2, hfold1, hstep, hfold2⟩ := foldlM_opt_append_split _ l1 l2 o m m' hpass
  have hQ : mlookup s1 o = some p ∧
      mlookup s1 (o.set_direction axis Direction.Positive) = some q ∧ NodupKeys s1 := by
    refine foldlM_opt_preserves
      (fun mm => mlookup mm o = some p ∧
        mlookup mm (o.set_direction axis Direction.Positive) = some q ∧ NodupKeys mm)
      _ l1 ?_ m s1 hfold1 ⟨hp, hq, hnd⟩
    intro s x s' hxmem hstep' hP
    have hxo : o ≠ x := fun hc => ho_not_l1 (hc ▸ hxmem)
    refine ⟨?_, ?_, stitch_children_step_nodup table τ axis s s' x hstep' hP.2.2⟩
    · rw [stitch_children_step_lookup table τ axis s s' x hstep' o
        (octant_keys_safe_neg axis o x hneg hxo)]
      exact hP.1
    · rw [stitch_children_step_lookup table τ axis s s' x hstep' _
        (octant_keys_safe_pos axis o x hneg hxo)]
      exact hP.2.1
  have hEst := stitch_children_step_establishes table τ axis s1 s2 o p q r
    hQ.2.2 hneg hQ.1 hQ.2.1 hr hstep
  refine foldlM_opt_preserves
    (fun mm => mlookup mm (o.set_direction axis Direction.Positive) = some r ∧
      mlookup mm o = none)
    _ l2 ?_ s2 m' hfold2 hEst
  intro s x s' hxmem hstep' hP
  have hxo : o ≠ x := fun hc => ho_not_l2 (hc ▸ hxmem)
  constructor
  · rw [stitch_children_step_lookup table τ axis s s' x hstep' _
      (octant_keys_safe_pos axis o x hneg hxo)]
    exact hP.1
  · rw [stitch_children_step_lookup table τ axis s s' x hstep' o
      (octant_keys_safe_neg axis o x hneg hxo)]
    exact hP.2

/-- A concrete two-entry children map: the NegNegNeg octant holds the
one-cell patch on the negative X side and the PosNegNeg octant the one on the
positive X side of a two-cell global grid. -/
def c5_children_map : List (OctantAxisDirections × SurfacePatch) :=
  [(OctantAxisDirections.from_bool false false false,
      empty_patch witness_negative_subdomain),
   (OctantAxisDirections.from_bool true false false,
      empty_patch witness_positive_subdomain)]

/-- C5 counterexample: after the X pass of stitch_children_orthogonal_to on
the concrete two-entry children map, the stitched patch is stored under the
POSITIVE octant's key and the negative octant's key is absent — the claim
says it is inserted under the negative octant's key. -/
theorem stitch_children_orthogonal_to_counterexample :
    (stitch_children_orthogonal_to empty_mc_table 1 Axis.X c5_children_map).map
      (fun m =>
        ((mlookup m (OctantAxisDirections.from_bool false false false)).isSome,
         (mlookup m (OctantAxisDirections.from_bool true false false)).isSome)) =
      some (false, true) := by rfl

/-- Witness for the amended C5 theorem at the concrete children map. -/
theorem stitch_children_orthogonal_to_spec_witness :
    mlookup ((stitch_children_orthogonal_to empty_mc_table 1 Axis.X c5_children_map).getD [])
        ((OctantAxisDirections.from_bool false false false).set_direction Axis.X
          Direction.Positive) =
      some ((stitch_meshes empty_mc_table 1 Axis.X (empty_patch witness_negative_subdomain)
        (empty_patch witness_positive_subdomain)).getD
          (empty_patch witness_negative_subdomain)) ∧
    mlookup ((stitch_children_orthogonal_to empty_mc_table 1 Axis.X c5_children_map).getD [])
        (OctantAxisDirections.from_bool false false false) = none := by
  have hr : stitch_meshes empty_mc_table 1 Axis.X (empty_patch witness_negative_subdomain)
      (empty_patch witness_positive_subdomain) =
      some ((stitch_meshes empty_mc_table 1 Axis.X (empty_patch witness_negative_subdomain)
        (empty_patch witness_positive_subdomain)).getD
          (empty_patch witness_negative_subdomain)) := by rfl
  have hpass : stitch_children_orthogonal_to empty_mc_table 1 Axis.X c5_children_map =
      some ((stitch_children_orthogonal_to empty_mc_table 1 Axis.X c5_children_map).getD
        []) := by rfl
  exact stitch_children_orthogonal_to_spec empty_mc_table 1 Axis.X c5_children_map _
    (OctantAxisDirections.from_bool false false false) _ _ _ (by decide) (by rfl)
    (by rfl) (by rfl) hr hpass

/-! ## Octree decomposition (octree.rs: OctantDirectionFlags, ParticleSet,
NodeData, OctreeNode, split criteria, subdivide_with_margin,
subdivide_recursively_margin) -/

def R3.sub (p q : R3) : R3 := ⟨p.x - q.x, p.y - q.y, p.z - q.z⟩

/-- OctantDirectionFlags (octree.rs:892): one bit per axis direction; a
particle may belong to several octants once the ghost margin is counted. -/
structure OctantDirectionFlags : Type where
  x_neg : Bool
  x_pos : Bool
  y_neg : Bool
  y_pos : Bool
  z_neg : Bool
  z_pos : Bool
  deriving DecidableEq, Repr

/-- Bitflags containment: every bit set in b is also set in a. -/
def OctantDirectionFlags.contains_flags (a b : OctantDirectionFlags) : Bool :=
  (!b.x_neg || a.x_neg) && (!b.x_pos || a.x_pos) && (!b.y_neg || a.y_neg) &&
  (!b.y_pos || a.y_pos) && (!b.z_neg || a.z_neg) && (!b.z_pos || a.z_pos)

/-- OctantDirectionFlags::classify_with_margin (octree.rs:919): classifies a
point relative to zero into all octants it belongs to, including a margin
around the octants. -/
def OctantDirectionFlags.classify_with_margin (point : R3) (margin : ℚ) :
    OctantDirectionFlags :=
  ⟨decide (point.x < margin), decide (-margin < point.x),
   decide (point.y < margin), decide (-margin < point.y),
   decide (point.z < margin), decide (-margin < point.z)⟩

/-- OctantDirectionFlags::from_directions (octree.rs:947). -/
def OctantDirectionFlags.from_directions (d : OctantAxisDirections) :
    OctantDirectionFlags :=
  ⟨d.x_axis.is_negative, d.x_axis.is_positive, d.y_axis.is_negative,
   d.y_axis.is_positive, d.z_axis.is_negative, d.z_axis.is_positive⟩

/-- OctantAxisDirections::classify (octree.rs:1027): the main octant of a
point relative to zero, by the sign of each component.  Modelled from the
spec for the scalar type: is_positive over ℚ means strictly positive (the
source's IEEE scalars additionally distinguish signed zeros). -/
def OctantAxisDirections.classify (point : R3) : OctantAxisDirections :=
  OctantAxisDirections.from_bool (decide (0 < point.x)) (decide (0 < point.y))
    (decide (0 < point.z))

/-- OctantAxisDirections::combine_point_index (octree.rs:1036): choose the
upper corner component on positive axes, the lower one otherwise, then
validate the point against the grid. -/
def OctantAxisDirections.combine_point_index (d : OctantAxisDirections)
    (g : UniformGrid) (lower upper : I3) : Option I3 :=
  g.get_point ⟨if d.x_axis.is_positive then upper.x else lower.x,
               if d.y_axis.is_positive then upper.y else lower.y,
               if d.z_axis.is_positive then upper.z else lower.z⟩

/-- get_split_point (octree.rs:746): the component-wise midpoint
(lower + upper) / 2 of the corner points, validated against the grid.  Lean's
Int division agrees with Rust's division on the non-negative indices that
occur in a grid. -/
def get_split_point (g : UniformGrid) (lower upper : I3) : Option I3 :=
  g.get_point
    ⟨(lower.x + upper.x) / 2, (lower.y + upper.y) / 2, (lower.z + upper.z) / 2⟩

/-- ParticleSet (octree.rs:77): particle indices plus the number of ghost
particles among them.  The source stores the ghost count as usize; it is
produced by a usize subtraction in subdivide_with_margin, so it is modelled
as ℤ to make non-underflow of that subtraction a provable property. -/
structure ParticleSet : Type where
  particles : List ℕ
  ghost_particle_count : ℤ
  deriving DecidableEq, Repr

/-- NodeData (octree.rs:60). -/
inductive NodeData : Type
  | none
  | particleSet (particle_set : ParticleSet)
  | surfacePatch (patch : SurfacePatch)

/-- OctreeNode (octree.rs:36): children, corner points on the background grid
and associated data. -/
inductive OctreeNode : Type
  | mk (min_corner : I3) (max_corner : I3) (data : NodeData)
      (children : List OctreeNode)

def OctreeNode.min_corner : OctreeNode → I3
  | OctreeNode.mk mn _ _ _ => mn

def OctreeNode.max_corner : OctreeNode → I3
  | OctreeNode.mk _ mx _ _ => mx

def OctreeNode.data : OctreeNode → NodeData
  | OctreeNode.mk _ _ d _ => d

def OctreeNode.children : OctreeNode → List OctreeNode
  | OctreeNode.mk _ _ _ cs => cs

/-- Modelled from the spec: the leaves of a tree, in visiting order — the
nodes without children (generic_tree.rs is not among the provided source
files). -/
def OctreeNode.leaves : OctreeNode → List OctreeNode
  | OctreeNode.mk mn mx d cs =>
    if cs.isEmpty then [OctreeNode.mk mn mx d cs]
    else (cs.attach.map (fun c => OctreeNode.leaves c.1)).flatten
decreasing_by
  simp_wf
  have := List.sizeOf_lt_of_mem c.2
  omega

/-- Effectful map over Option: models a source loop that collects one result
per element and whose body can panic (none). -/
def mapM_opt {α β : Type} (f : α → Option β) : List α → Option (List β)
  | [] => some []
  | a :: l =>
    match f a with
    | Option.none => Option.none
    | some b =>
      match mapM_opt f l with
      | Option.none => Option.none
      | some bs => some (b :: bs)

/-- The position of a particle relative to the split point
(octree.rs:388, `particle_positions[particle_idx] - split_coordinates`).  An
out-of-range particle index (a panic in the source) reads a zero position
here. -/
def octree_relative_pos (particle_positions : List R3) (split_coordinates : R3)
    (particle_idx : ℕ) : R3 :=
  R3.sub (particle_positions.getD particle_idx ⟨0, 0, 0⟩) split_coordinates

/-- Whether a particle's main octant is the given octant (octree.rs:392, the
non-ghost counting). -/
def octree_main_octant_pred (particle_positions : List R3) (split_coordinates : R3)
    (octant : OctantAxisDirections) (i : ℕ) : Bool :=
  decide (OctantAxisDirections.classify
    (octree_relative_pos particle_positions split_coordinates i) = octant)

/-- Whether a particle's margin classification flags contain the given
octant (octree.rs:398-407, the per-octant counting and the later filter). -/
def octree_margin_pred (particle_positions : List R3) (split_coordinates : R3)
    (margin : ℚ) (octant : OctantAxisDirections) (i : ℕ) : Bool :=
  (OctantDirectionFlags.classify_with_margin
      (octree_relative_pos particle_positions split_coordinates i) margin).contains_flags
    (OctantDirectionFlags.from_directions octant)

/-- Construction of the child node of one octant (the loop body at
octree.rs:413-446): corner points via combine_point_index (panics modelled as
none), the particles filtered to the octant, and the ghost count
octant_particle_count − octant_non_ghost_count.  The source maintains the
per-octant counters incrementally while looping over the particles; they are
translated as list counts (countP) of the identical predicates — the source
itself asserts that the counter equals the length of the filtered particle
list. -/
def octree_octant_child (grid : UniformGrid) (particle_positions : List R3)
    (split_coordinates : R3) (margin : ℚ) (particle_set : ParticleSet)
    (min_corner split_point max_corner : I3)
    (current_octant_dir : OctantAxisDirections) : Option OctreeNode :=
  match current_octant_dir.combine_point_index grid min_corner split_point,
      current_octant_dir.combine_point_index grid split_point max_corner with
  | some octant_min_corner, some octant_max_corner =>
    let octant_particles := particle_set.particles.filter
      (octree_margin_pred particle_positions split_coordinates margin
        current_octant_dir)
    let octant_particle_count := particle_set.particles.countP
      (octree_margin_pred particle_positions split_coordinates margin
        current_octant_dir)
    let octant_non_ghost_count := particle_set.particles.countP
      (octree_main_octant_pred particle_positions split_coordinates
        current_octant_dir)
    some (OctreeNode.mk octant_min_corner octant_max_corner
      (NodeData.particleSet ⟨octant_particles,
        (octant_particle_count : ℤ) - octant_non_ghost_count⟩) [])
  | _, _ => Option.none

/-- OctreeNode::subdivide_with_margin (octree.rs:366): split a ParticleSet
leaf into 8 octant children with ghost margins.  Panics (non-ParticleSet
data, a failing split-point lookup) are modelled as none. -/
def OctreeNode.subdivide_with_margin (grid : UniformGrid)
    (particle_positions : List R3) (margin : ℚ) (node : OctreeNode) :
    Option OctreeNode :=
  match node.data with
  | NodeData.particleSet particle_set =>
    match get_split_point grid node.min_corner node.max_corner with
    | Option.none => Option.none
    | some split_point =>
      match mapM_opt
          (octree_octant_child grid particle_positions
            (grid.point_coordinates split_point) margin particle_set
            node.min_corner split_point node.max_corner)
          OctantAxisDirections.all with
      | Option.none => Option.none
      | some children =>
        some (OctreeNode.mk node.min_corner node.max_corner NodeData.none children)
  | _ => Option.none

/-- OctreeNode::new_root (octree.rs:269): the root spans all grid points
([0,0,0] to points_per_dim − 1) and owns every particle index, with no ghost
particles. -/
def OctreeNode.new_root (grid : UniformGrid) (n_particles : ℕ) : Option OctreeNode :=
  match grid.get_point ⟨0, 0, 0⟩,
      grid.get_point ⟨grid.points_per_dim.x - 1, grid.points_per_dim.y - 1,
        grid.points_per_dim.z - 1⟩ with
  | some min_point, some max_point =>
    some (OctreeNode.mk min_point max_point
      (NodeData.particleSet ⟨List.range n_particles, 0⟩) [])
  | _, _ => Option.none

/-- MaxNonGhostParticleLeafSplitCriterion::split_leaf (octree.rs:786): split
while the number of non-ghost particles exceeds the limit; false on non-leaf
data. -/
def max_non_ghost_split_leaf (max_particles : ℕ) (node : OctreeNode) : Bool :=
  match node.data with
  | NodeData.particleSet particle_set =>
    decide ((max_particles : ℤ) <
      (particle_set.particles.length : ℤ) - particle_set.ghost_particle_count)
  | _ => false

/-- MinimumExtentSplitCriterion::split_leaf (octree.rs:813): split only while
every extent is at least twice the minimum extent. -/
def minimum_extent_split_leaf (minimum_extent : ℤ) (node : OctreeNode) : Bool :=
  decide (minimum_extent + minimum_extent ≤ node.max_corner.x - node.min_corner.x) &&
  decide (minimum_extent + minimum_extent ≤ node.max_corner.y - node.min_corner.y) &&
  decide (minimum_extent + minimum_extent ≤ node.max_corner.z - node.min_corner.z)

/-- default_split_criterion with SubdivisionCriterion::MaxParticleCount(N)
(octree.rs:835): the pair of criteria, both of which must hold. -/
def split_criterion (max_particles : ℕ) (node : OctreeNode) : Bool :=
  max_non_ghost_split_leaf max_particles node && minimum_extent_split_leaf 1 node

/-- subdivide_recursively_margin (octree.rs:143): the source visits the tree
breadth-first, splitting every leaf that satisfies the criterion; on a tree
this equals the depth-first recursion written here.  The fuel bounds the
recursion depth (the source terminates because octant extents shrink); none
means the fuel ran out. -/
def subdivide_recursively_margin (grid : UniformGrid)
    (particle_positions : List R3) (max_particles : ℕ) (margin : ℚ) :
    ℕ → OctreeNode → Option OctreeNode
  | 0, _ => Option.none
  | fuel + 1, node =>
    if split_criterion max_particles node then
      match node.subdivide_with_margin grid particle_positions margin with
      | Option.none => Option.none
      | some node2 =>
        match mapM_opt (subdivide_recursively_margin grid particle_positions
            max_particles margin fuel) node2.children with
        | Option.none => Option.none
        | some children2 =>
          some (OctreeNode.mk node2.min_corner node2.max_corner node2.data children2)
    else some node

/-- Octree::new_octree + subdivide_recursively_margin with
SubdivisionCriterion::MaxParticleCount (octree.rs:98/143): build the root
node over the whole grid and subdivide it recursively. -/
def octree_build (grid : UniformGrid) (particle_positions : List R3)
    (max_particles : ℕ) (margin : ℚ) (fuel : ℕ) : Option OctreeNode :=
  match OctreeNode.new_root grid particle_positions.length with
  | Option.none => Option.none
  | some root =>
    subdivide_recursively_margin grid particle_positions max_particles margin fuel root

theorem mapM_opt_forall2 {α β : Type} (f : α → Option β) :
    ∀ (l : List α) (l2 : List β), mapM_opt f l = some l2 →
      List.Forall₂ (fun a b => f a = some b) l l2 := by
  intro l
  induction l with
  | nil =>
    intro l2 h
    simp [mapM_opt] at h
    rw [h]
    exact List.Forall₂.nil
  | cons a l ih =>
    intro l2 h
    unfold mapM_opt at h
    cases hfa : f a with
    | none => rw [hfa] at h; exact Option.noConfusion h
    | some b =>
      rw [hfa] at h
      cases hml : mapM_opt f l with
      | none => rw [hml] at h; exact Option.noConfusion h
      | some bs =>
        rw [hml] at h
        rw [← Option.some.inj h]
        exact List.Forall₂.cons hfa (ih bs hml)

theorem forall2_map_eq {α β : Type} (R : α → β → Prop) (v : β → ℤ) (w : α → ℤ)
    (hv : ∀ a b, R a b → v b = w a) :
    ∀ (l : List α) (l2 : List β), List.Forall₂ R l l2 → l2.map v = l.map w := by
  intro l l2 h
  induction h with
  | nil => rfl
  | cons hR _ ih => simp only [List.map_cons, hv _ _ hR, ih]

theorem sum_map_add_nat {α : Type} (l : List α) (f g : α → ℕ) :
    (l.map (fun a => f a + g a)).sum = (l.map f).sum + (l.map g).sum := by
  induction l with
  | nil => rfl
  | cons a l ih =>
    simp only [List.map_cons, List.sum_cons, ih]
    omega

theorem countP_eq_sum_map {α : Type} (p : α → Bool) :
    ∀ l : List α, l.countP p = (l.map (fun a => if p a then 1 else 0)).sum := by
  intro l
  induction l with
  | nil => rfl
  | cons a l ih =>
    rw [List.countP_cons]
    simp only [List.map_cons, List.sum_cons, ih]
    omega

theorem countP_sum_swap {α β : Type} (p : α → β → Bool) :
    ∀ (l : List α) (os : List β),
      (os.map (fun o => l.countP (fun a => p a o))).sum =
        (l.map (fun a => os.countP (p a))).sum := by
  intro l
  induction l with
  | nil => intro os; simp [List.countP_nil]
  | cons a l ih =>
    intro os
    simp only [List.countP_cons, List.map_cons, List.sum_cons]
    rw [sum_map_add_nat]
    rw [ih]
    rw [← countP_eq_sum_map]
    omega

theorem octant_countP_one (x : OctantAxisDirections) :
    OctantAxisDirections.all.countP (fun o => decide (x = o)) = 1 := by
  obtain ⟨dx, dy, dz⟩ := x
  cases dx <;> cases dy <;> cases dz <;> decide

theorem sum_map_intCast {α : Type} (l : List α) (f : α → ℕ) :
    (l.map (fun a => (f a : ℤ))).sum = ((l.map f).sum : ℤ) := by
  induction l with
  | nil => rfl
  | cons a l ih => simp only [List.map_cons, List.sum_cons, ih]; push_cast; ring

/-- C10: subdivide_with_margin on a ParticleSet leaf produces exactly 8
children whose non-ghost particle counts sum to the parent's particle count:
every particle is classified into exactly one main octant. -/
theorem subdivide_with_margin_octant_partition
    (grid : UniformGrid) (particle_positions : List R3) (margin : ℚ)
    (node t : OctreeNode) (ps : ParticleSet)
    (hdata : node.data = NodeData.particleSet ps)
    (h : OctreeNode.subdivide_with_margin grid particle_positions margin node = some t) :
    t.children.length = 8 ∧
      (t.children.map (fun c =>
        match c.data with
        | NodeData.particleSet cps =>
          (cps.particles.length : ℤ) - cps.ghost_particle_count
        | _ => 0)).sum = (ps.particles.length : ℤ) := by
  unfold OctreeNode.subdivide_with_margin at h
  rw [hdata] at h
  simp only [] at h
  cases hsp : get_split_point grid node.min_corner node.max_corner with
  | none => rw [hsp] at h; exact Option.noConfusion h
  | some split_point =>
    rw [hsp] at h
    simp only [] at h
    cases hcs : mapM_opt
        (octree_octant_child grid particle_positions
          (grid.point_coordinates split_point) margin ps
          node.min_corner split_point node.max_corner)
        OctantAxisDirections.all with
    | none => rw [hcs] at h; exact Option.noConfusion h
    | some children =>
      rw [hcs] at h
      rw [← Option.some.inj h]
      have hF := mapM_opt_forall2 _ _ _ hcs
      constructor
      · have hlen := hF.length_eq
        have hall : OctantAxisDirections.all.length = 8 := rfl
        simp only [OctreeNode.children]
        omega
      · simp only [OctreeNode.children]
        have hmap := forall2_map_eq
          (fun o c => octree_octant_child grid particle_positions
            (grid.point_coordinates split_point) margin ps
            node.min_corner split_point node.max_corner o = some c)
          (fun c =>
            match c.data with
            | NodeData.particleSet cps =>
              (cps.particles.length : ℤ) - cps.ghost_particle_count
            | _ => 0)
          (fun o => (ps.particles.countP (octree_main_octant_pred particle_positions
            (grid.point_coordinates split_point) o) : ℤ))
          ?_ OctantAxisDirections.all children hF
        · rw [hmap]
          rw [sum_map_intCast]
          have hswap := countP_sum_swap
            (fun i o => octree_main_octant_pred particle_positions
              (grid.point_coordinates split_point) o i)
            ps.particles OctantAxisDirections.all
          rw [hswap]
          have hone : ∀ i : ℕ, OctantAxisDirections.all.countP
              (octree_main_octant_pred particle_positions
                (grid.point_coordinates split_point) · i) = 1 := by
            intro i
            have := octant_countP_one (OctantAxisDirections.classify
              (octree_relative_pos particle_positions
                (grid.point_coordinates split_point) i))
            simpa [octree_main_octant_pred] using this
          simp only [hone]
          simp [List.map_const]
        · intro a b hR
          unfold octree_octant_child at hR
          cases h1 : a.combine_point_index grid node.min_corner split_point with
          | none => rw [h1] at hR; exact Option.noConfusion hR
          | some mn =>
            rw [h1] at hR
            cases h2 : a.combine_point_index grid split_point node.max_corner with
            | none => rw [h2] at hR; exact Option.noConfusion hR
            | some mx =>
              rw [h2] at hR
              simp only [] at hR
              rw [← Option.some.inj hR]
              simp only [OctreeNode.data]
              rw [List.countP_eq_length_filter]
              ring

theorem axis_margin_flags (x margin : ℚ) (h : 0 < margin) :
    (!(Direction.new_positive (decide (0 < x))).is_negative || decide (x < margin)) = true ∧
    (!(Direction.new_positive (decide (0 < x))).is_positive || decide (-margin < x)) = true := by
  by_cases h0 : 0 < x
  · simp [h0, Direction.new_positive, Direction.is_negative, Direction.is_positive]
    linarith
  · simp [h0, Direction.new_positive, Direction.is_negative, Direction.is_positive]
    have := not_lt.mp h0
    linarith

/-- With a strictly positive margin, the main octant of a point is always
among the octants of its margin classification. -/
theorem classify_mem_margin_flags (v : R3) (margin : ℚ) (h : 0 < margin) :
    (OctantDirectionFlags.classify_with_margin v margin).contains_flags
      (OctantDirectionFlags.from_directions (OctantAxisDirections.classify v)) = true := by
  obtain ⟨hx1, hx2⟩ := axis_margin_flags v.x margin h
  obtain ⟨hy1, hy2⟩ := axis_margin_flags v.y margin h
  obtain ⟨hz1, hz2⟩ := axis_margin_flags v.z margin h
  simp only [OctantDirectionFlags.contains_flags, OctantDirectionFlags.classify_with_margin,
    OctantDirectionFlags.from_directions, OctantAxisDirections.classify,
    OctantAxisDirections.from_bool, Bool.and_eq_true, Bool.or_eq_true] at *
  exact ⟨⟨⟨⟨⟨hx1, hx2⟩, hy1⟩, hy2⟩, hz1⟩, hz2⟩

theorem mapM_opt_mem {α β : Type} (f : α → Option β) :
    ∀ (l : List α) (l2 : List β), mapM_opt f l = some l2 →
      ∀ b ∈ l2, ∃ a ∈ l, f a = some b := by
  intro l l2 h
  have hF := mapM_opt_forall2 f l l2 h
  clear h
  induction hF with
  | nil => intro b hb; exact absurd hb (List.not_mem_nil b)
  | cons hR _ ih =>
    intro b hb
    rcases List.mem_cons.mp hb with hb | hb
    · exact ⟨_, List.mem_cons_self _ _, hb ▸ hR⟩
    · obtain ⟨a, ha, hfa⟩ := ih b hb
      exact ⟨a, List.mem_cons_of_mem _ ha, hfa⟩

theorem subdivide_with_margin_children_spec (grid : UniformGrid)
    (particle_positions : List R3) (margin : ℚ) (node node2 : OctreeNode)
    (hmargin : 0 < margin)
    (h : OctreeNode.subdivide_with_margin grid particle_positions margin node =
      some node2) :
    node2.children.length = 8 ∧
      ∀ c ∈ node2.children, c.children = [] ∧
        ∃ cps, c.data = NodeData.particleSet cps ∧
          0 ≤ cps.ghost_particle_count ∧
          cps.ghost_particle_count ≤ (cps.particles.length : ℤ) := by
  unfold OctreeNode.subdivide_with_margin at h
  cases hnd : node.data with
  | particleSet ps =>
    rw [hnd] at h
    simp only [] at h
    cases hsp : get_split_point grid node.min_corner node.max_corner with
    | none => rw [hsp] at h; exact Option.noConfusion h
    | some split_point =>
      rw [hsp] at h
      simp only [] at h
      cases hcs : mapM_opt
          (octree_octant_child grid particle_positions
            (grid.point_coordinates split_point) margin ps
            node.min_corner split_point node.max_corner)
          OctantAxisDirections.all with
      | none => rw [hcs] at h; exact Option.noConfusion h
      | some children =>
        rw [hcs] at h
        rw [← Option.some.inj h]
        constructor
        · have hlen := (mapM_opt_forall2 _ _ _ hcs).length_eq
          have hall : OctantAxisDirections.all.length = 8 := rfl
          simp only [OctreeNode.children]
          omega
        · intro c hc
          simp only [OctreeNode.children] at hc
          obtain ⟨o, _, ho⟩ := mapM_opt_mem _ _ _ hcs c hc
          unfold octree_octant_child at ho
          cases h1 : o.combine_point_index grid node.min_corner split_point with
          | none => rw [h1] at ho; exact Option.noConfusion ho
          | some mn =>
            rw [h1] at ho
            cases h2 : o.combine_point_index grid split_point node.max_corner with
            | none => rw [h2] at ho; exact Option.noConfusion ho
            | some mx =>
              rw [h2] at ho
              simp only [] at ho
              rw [← Option.some.inj ho]
              refine ⟨rfl, _, rfl, ?_, ?_⟩
              · simp only [sub_nonneg]
                have hmono : ps.particles.countP
                    (octree_main_octant_pred particle_positions
                      (grid.point_coordinates split_point) o) ≤
                    ps.particles.countP
                      (octree_margin_pred particle_positions
                        (grid.point_coordinates split_point) margin o) := by
                  apply List.countP_mono_left
                  intro i _ hp
                  simp only [octree_main_octant_pred, decide_eq_true_eq] at hp
                  simp only [octree_margin_pred]
                  rw [← hp]
                  exact classify_mem_margin_flags _ margin hmargin
                exact_mod_cast hmono
              · simp only [OctreeNode.data]
                rw [List.countP_eq_length_filter]
                have hnn : (0 : ℤ) ≤ ps.particles.countP
                    (octree_main_octant_pred particle_positions
                      (grid.point_coordinates split_point) o) := Int.ofNat_nonneg _
                omega
  | none =>
    rw [hnd] at h
    exact Option.noConfusion h
  | surfacePatch patch =>
    rw [hnd] at h
    exact Option.noConfusion h

theorem leaves_of_leaf (mn mx : I3) (d : NodeData) :
    (OctreeNode.mk mn mx d []).leaves = [OctreeNode.mk mn mx d []] := by
  rw [OctreeNode.leaves]
  rfl

theorem mem_leaves_of_node (mn mx : I3) (d : NodeData) (cs : List OctreeNode)
    (hcs : cs ≠ []) (l : OctreeNode) (hl : l ∈ (OctreeNode.mk mn mx d cs).leaves) :
    ∃ c ∈ cs, l ∈ c.leaves := by
  rw [OctreeNode.leaves] at hl
  rw [if_neg (by simpa using hcs)] at hl
  rw [List.mem_flatten] at hl
  obtain ⟨ll, hll, hlmem⟩ := hl
  rw [List.mem_map] at hll
  obtain ⟨c, _, hc⟩ := hll
  exact ⟨c.1, c.2, hc ▸ hlmem⟩

/-- The invariant carried through the recursive subdivision: starting from a
leaf whose ghost count is within bounds, every leaf of the resulting subtree
has in-bounds ghost counts, and its non-ghost count is at most the limit
unless the minimum-extent criterion blocked further splitting. -/
theorem subdivide_recursively_leaf_bounds (grid : UniformGrid)
    (particle_positions : List R3) (max_particles : ℕ) (margin : ℚ)
    (hmargin : 0 < margin) :
    ∀ (fuel : ℕ) (node t : OctreeNode),
      node.children = [] →
      (∃ ps, node.data = NodeData.particleSet ps ∧ 0 ≤ ps.ghost_particle_count ∧
        ps.ghost_particle_count ≤ (ps.particles.length : ℤ)) →
      subdivide_recursively_margin grid particle_positions max_particles margin
        fuel node = some t →
      ∀ l ∈ t.leaves, ∃ cps, l.data = NodeData.particleSet cps ∧
        0 ≤ cps.ghost_particle_count ∧
        cps.ghost_particle_count ≤ (cps.particles.length : ℤ) ∧
        ((cps.particles.length : ℤ) - cps.ghost_particle_count ≤ max_particles ∨
          l.max_corner.x - l.min_corner.x < 2 ∨
          l.max_corner.y - l.min_corner.y < 2 ∨
          l.max_corner.z - l.min_corner.z < 2) := by
  intro fuel
  induction fuel with
  | zero => intro node t _ _ h; exact Option.noConfusion h
  | succ fuel ih =>
    intro node t hleaf hps h
    unfold subdivide_recursively_margin at h
    by_cases hc : split_criterion max_particles node = true
    · rw [if_pos hc] at h
      cases hsub : OctreeNode.subdivide_with_margin grid particle_positions margin
          node with
      | none => rw [hsub] at h; exact Option.noConfusion h
      | some node2 =>
        rw [hsub] at h
        simp only [] at h
        cases hm : mapM_opt (subdivide_recursively_margin grid particle_positions
            max_particles margin fuel) node2.children with
        | none => rw [hm] at h; exact Option.noConfusion h
        | some children2 =>
          rw [hm] at h
          rw [← Option.some.inj h]
          intro l hl
          obtain ⟨hlen8, hchild⟩ := subdivide_with_margin_children_spec grid
            particle_positions margin node node2 hmargin hsub
          have hne : children2 ≠ [] := by
            intro hcontra
            have hlen := (mapM_opt_forall2 _ _ _ hm).length_eq
            rw [hlen8, hcontra] at hlen
            simp at hlen
          obtain ⟨c2, hc2mem, hlc2⟩ := mem_leaves_of_node _ _ _ _ hne l hl
          obtain ⟨c, hcmem, hrec⟩ := mapM_opt_mem _ _ _ hm c2 hc2mem
          obtain ⟨hcleaf, cps, hcdat, hg0, hgl⟩ := hchild c hcmem
          exact ih c c2 hcleaf ⟨cps, hcdat, hg0, hgl⟩ hrec l hlc2
    · rw [if_neg hc] at h
      rw [← Option.some.inj h]
      intro l hl
      obtain ⟨ps, hdat, hg0, hgl⟩ := hps
      cases node with
      | mk mn mx d cs =>
        simp only [OctreeNode.children] at hleaf
        subst hleaf
        rw [leaves_of_leaf] at hl
        rcases List.mem_singleton.mp hl with rfl
        refine ⟨ps, hdat, hg0, hgl, ?_⟩
        have hcf : split_criterion max_particles (OctreeNode.mk mn mx d []) = false :=
          Bool.not_eq_true _ ▸ eq_false_of_ne_true hc
        unfold split_criterion at hcf
        rcases Bool.and_eq_false_iff.mp hcf with hmax | hext
        · left
          unfold max_non_ghost_split_leaf at hmax
          rw [show (OctreeNode.mk mn mx d []).data = NodeData.particleSet ps from hdat]
            at hmax
          simp only [] at hmax
          simp only [decide_eq_false_iff_not, not_lt] at hmax
          omega
        · right
          unfold minimum_extent_split_leaf at hext
          simp only [OctreeNode.max_corner, OctreeNode.min_corner] at *
          rcases Bool.and_eq_false_iff.mp hext with hxy | hz
          · rcases Bool.and_eq_false_iff.mp hxy with hx | hy
            · left
              simp only [decide_eq_false_iff_not, not_le] at hx
              omega
            · right; left
              simp only [decide_eq_false_iff_not, not_le] at hy
              omega
          · right; right
            simp only [decide_eq_false_iff_not, not_le] at hz
            omega

/-- C8 (amended): in an octree built with MaxParticleCount(N) and a strictly
positive margin, every leaf holds a ParticleSet whose ghost count is
non-negative and at most the leaf's total particle count, and whose non-ghost
count is at most N unless the minimum-extent split criterion blocked further
splitting (the leaf is fewer than 2 cells wide along some axis). -/
theorem octree_leaf_particle_bounds (grid : UniformGrid)
    (particle_positions : List R3) (max_particles : ℕ) (margin : ℚ) (fuel : ℕ)
    (t : OctreeNode) (hmargin : 0 < margin)
    (hbuild : octree_build grid particle_positions max_particles margin fuel =
      some t) :
    ∀ l ∈ t.leaves, ∃ cps, l.data = NodeData.particleSet cps ∧
      0 ≤ cps.ghost_particle_count ∧
      cps.ghost_particle_count ≤ (cps.particles.length : ℤ) ∧
      ((cps.particles.length : ℤ) - cps.ghost_particle_count ≤ (max_particles : ℤ) ∨
        l.max_corner.x - l.min_corner.x < 2 ∨
        l.max_corner.y - l.min_corner.y < 2 ∨
        l.max_corner.z - l.min_corner.z < 2) := by
  unfold octree_build at hbuild
  cases hr : OctreeNode.new_root grid particle_positions.length with
  | none => rw [hr] at hbuild; exact Option.noConfusion hbuild
  | some root =>
    rw [hr] at hbuild
    unfold OctreeNode.new_root at hr
    cases h1 : grid.get_point ⟨0, 0, 0⟩ with
    | none => rw [h1] at hr; exact Option.noConfusion hr
    | some min_point =>
      rw [h1] at hr
      cases h2 : grid.get_point ⟨grid.points_per_dim.x - 1, grid.points_per_dim.y - 1,
          grid.points_per_dim.z - 1⟩ with
      | none => rw [h2] at hr; exact Option.noConfusion hr
      | some max_point =>
        rw [h2] at hr
        simp only [] at hr
        refine subdivide_recursively_leaf_bounds grid particle_positions max_particles
          margin hmargin fuel root t ?_ ?_ hbuild
        · rw [← Option.some.inj hr]
          rfl
        · rw [← Option.some.inj hr]
          exact ⟨⟨List.range particle_positions.length, 0⟩, rfl, le_refl 0,
            Int.ofNat_nonneg _⟩

/-- A one-cell grid: the minimum-extent criterion forbids any split. -/
def c8_grid : UniformGrid := ⟨⟨0, 0, 0⟩, ⟨1, 1, 1⟩, 1⟩

def c8_positions : List R3 := [⟨0, 0, 0⟩, ⟨0, 0, 0⟩]

/-- The root node the build produces on c8_grid with two particles. -/
def c8_root : OctreeNode :=
  OctreeNode.mk ⟨0, 0, 0⟩ ⟨1, 1, 1⟩ (NodeData.particleSet ⟨[0, 1], 0⟩) []

/-- C8 counterexample: with MaxParticleCount(1) on a one-cell grid holding
two particles, the built octree has a single leaf with 2 non-ghost particles,
exceeding the claimed bound N = 1: the minimum-extent criterion stops the
subdivision first. -/
theorem octree_leaf_bound_counterexample :
    (octree_build c8_grid c8_positions 1 1 2).map (fun t => t.leaves.map (fun l =>
      match l.data with
      | NodeData.particleSet cps =>
        (cps.particles.length : ℤ) - cps.ghost_particle_count
      | _ => 0)) = some [2] ∧ ¬((2 : ℤ) ≤ 1) := by
  constructor
  · have hb : octree_build c8_grid c8_positions 1 1 2 = some c8_root := by rfl
    rw [hb]
    have hleaves : c8_root.leaves = [c8_root] := leaves_of_leaf _ _ _
    simp only [Option.map_some', hleaves]
    rfl
  · decide

/-- Witness for the amended C8 theorem: the concrete build's single leaf
satisfies the ghost bounds and the disjunction (via its small extent). -/
theorem octree_leaf_particle_bounds_witness :
    ∃ cps, ((octree_build c8_grid c8_positions 1 1 2).getD c8_root).data =
        NodeData.particleSet cps ∧
      0 ≤ cps.ghost_particle_count ∧
      cps.ghost_particle_count ≤ (cps.particles.length : ℤ) ∧
      ((cps.particles.length : ℤ) - cps.ghost_particle_count ≤ ((1 : ℕ) : ℤ) ∨
        ((octree_build c8_grid c8_positions 1 1 2).getD c8_root).max_corner.x -
          ((octree_build c8_grid c8_positions 1 1 2).getD c8_root).min_corner.x < 2 ∨
        ((octree_build c8_grid c8_positions 1 1 2).getD c8_root).max_corner.y -
          ((octree_build c8_grid c8_positions 1 1 2).getD c8_root).min_corner.y < 2 ∨
        ((octree_build c8_grid c8_positions 1 1 2).getD c8_root).max_corner.z -
          ((octree_build c8_grid c8_positions 1 1 2).getD c8_root).min_corner.z < 2) := by
  have happ := octree_leaf_particle_bounds c8_grid c8_positions 1 1 2
    ((octree_build c8_grid c8_positions 1 1 2).getD c8_root) (by decide) (by rfl)
  have hmem : (octree_build c8_grid c8_positions 1 1 2).getD c8_root ∈
      ((octree_build c8_grid c8_positions 1 1 2).getD c8_root).leaves := by
    rw [show (octree_build c8_grid c8_positions 1 1 2).getD c8_root = c8_root from rfl]
    rw [show c8_root.leaves = [c8_root] from leaves_of_leaf _ _ _]
    exact List.mem_singleton_self _
  exact happ _ hmem

/-- A 2×2×2-cell grid whose split point (1,1,1) is a valid grid point. -/
def c10_grid : UniformGrid := ⟨⟨0, 0, 0⟩, ⟨2, 2, 2⟩, 1⟩

def c10_node : OctreeNode :=
  OctreeNode.mk ⟨0, 0, 0⟩ ⟨2, 2, 2⟩ (NodeData.particleSet ⟨[], 0⟩) []

/-- Witness for C10 at a concrete leaf: 8 children whose non-ghost counts sum
to the parent's particle count. -/
theorem subdivide_with_margin_octant_partition_witness :
    ((OctreeNode.subdivide_with_margin c10_grid [] 1 c10_node).getD
        c10_node).children.length = 8 ∧
      (((OctreeNode.subdivide_with_margin c10_grid [] 1 c10_node).getD
          c10_node).children.map (fun c =>
        match c.data with
        | NodeData.particleSet cps =>
          (cps.particles.length : ℤ) - cps.ghost_particle_count
        | _ => 0)).sum =
        (((⟨[], 0⟩ : ParticleSet).particles.length : ℕ) : ℤ) :=
  subdivide_with_margin_octant_partition c10_grid [] 1 c10_node
    ((OctreeNode.subdivide_with_margin c10_grid [] 1 c10_node).getD c10_node)
    ⟨[], 0⟩ rfl (by rfl)
